import Mathlib

/-!
# Shallow embedding of the EconomicAIAgent simulation core

This file embeds, in Lean, the per-step agent action-resolution cycle of
`agent.py` (`Agent.decide_and_act`, `Agent._random_action`,
`Agent.consider_trade_offer`, `Agent._random_trade_offer`,
`Agent.consider_trade_acceptance`) and the two-phase trading protocol of
`trading.py` (`TradeOffer`, `Market`, `calculate_manhattan_distance`,
`get_agents_in_trade_range`, `process_trading_phase`), together with the
per-step action loop of `main.py`.

Embedding conventions:
* Python integers become `Int` (inventories, energy, rates, coordinates);
  step numbers and list indices become `Nat`.
* The external decision backend (`llm.get_agent_action`) is an input: the
  list of responses the backend would give to the successive requests of a
  step, `none` standing for an absent (`None`) reply.
* All uses of the ambient random source (`random.choice`, `random.shuffle`,
  `random.random`) are inputs as well: index picks, an explicit processing
  order, and boolean coin flips.
* Python raising an uncaught exception (e.g. `action.split()[1]` on a bare
  `"move"`, or the `KeyError` in `_random_action`'s collect branch) is
  modelled by an `Option` result, `none` standing for the crash.
* The mutable roster (Python mutates `Agent` objects shared between the
  list and `agents_dict`) is threaded explicitly as a `List Agent`; lookups
  and in-place updates resolve by agent name to the first match, which
  coincides with Python's behaviour under the simulation's unique
  `Agent1`..`AgentN` names.
* `Agent.memory` entries are Python formatted strings; here they are kept
  as a record of the fields that the Python code formats into the string.
-/

namespace EconomicAgents

/-- A resource marker; cells hold at most one, inventories count both kinds. -/
inductive Resource
  | red
  | green
deriving DecidableEq

/-- The run configuration relevant to the embedded core
(`ENERGY_LOSS_PER_TURN`, `AGENT_MEMORY_SIZE`, `config.TRADE_RANGE`,
`config.RAND_MODE`). -/
structure Config where
  energyLossPerTurn : Int
  agentMemorySize : Nat
  tradeRange : Int
  randMode : Bool
deriving DecidableEq

/-- One `Agent.memory` entry: the fields Python formats into the stored
string in `Agent.add_memory`. -/
structure MemEntry where
  step : Nat
  action : String
  observation : String
  outcome : String
  energy : Int
  invRed : Int
  invGreen : Int
deriving DecidableEq

/-- The mutable per-agent state of `agent.py`'s `Agent`. -/
structure Agent where
  name : String
  position : Int × Int
  invRed : Int
  invGreen : Int
  energy : Int
  alive : Bool
  rateRed : Int
  rateGreen : Int
  actionsTaken : List String
  memory : List MemEntry
  stepCount : Nat
deriving DecidableEq

/-- The external `Environment` capability: a square grid of the given size
whose non-empty cells are listed with their marker. -/
structure Environment where
  size : Int
  cells : List ((Int × Int) × Resource)
deriving DecidableEq

/-- `environment.get_cell_content(x, y)`: the marker at a cell, if any. -/
def Environment.getCellContent (env : Environment) (p : Int × Int) : Option Resource :=
  (env.cells.find? (fun c => c.1 == p)).map (fun c => c.2)

/-- `environment.clear_cell(x, y)`. -/
def Environment.clearCell (env : Environment) (p : Int × Int) : Environment :=
  { env with cells := env.cells.filter (fun c => !(c.1 == p)) }

/-- `Agent.add_memory`: append an entry, then keep only the most recent
`AGENT_MEMORY_SIZE` entries. -/
def addMemory (cfg : Config) (a : Agent) (obs action outcome : String) : Agent :=
  let entry : MemEntry :=
    { step := a.stepCount, action := action, observation := obs, outcome := outcome,
      energy := a.energy, invRed := a.invRed, invGreen := a.invGreen }
  let m := a.memory ++ [entry]
  { a with memory := if m.length > cfg.agentMemorySize then m.drop (m.length - cfg.agentMemorySize) else m }

/-- The 3×3 window around `(x, y)` scanned by `get_current_observation`
(`dx, dy ∈ {-1, 0, 1}`, the centre included). -/
def neighborhood (x y : Int) : List (Int × Int) :=
  [(-1, -1), (-1, 0), (-1, 1), (0, -1), (0, 0), (0, 1), (1, -1), (1, 0), (1, 1)].map
    (fun d => (x + d.1, y + d.2))

/-- Count of in-bounds cells of the window holding the given marker. -/
def nearbyCount (env : Environment) (x y : Int) (r : Resource) : Nat :=
  ((neighborhood x y).filter (fun p =>
    decide (0 ≤ p.1 ∧ p.1 < env.size ∧ 0 ≤ p.2 ∧ p.2 < env.size) &&
      (env.getCellContent p == some r))).length

/-- Count of other living agents within Chebyshev distance 1
(`other.alive and other is not self`, resolved here by name). -/
def nearbyAgentCount (allAgents : List Agent) (a : Agent) : Nat :=
  (allAgents.filter (fun o =>
    o.alive && !(o.name == a.name) &&
      decide (|o.position.1 - a.position.1| ≤ 1 ∧ |o.position.2 - a.position.2| ≤ 1))).length

/-- `Agent.get_current_observation`: the formatted perception snapshot. -/
def currentObservation (env : Environment) (allAgents : List Agent) (a : Agent) : String :=
  let cellStr := match env.getCellContent a.position with
    | some Resource.red => "red"
    | some Resource.green => "green"
    | none => "empty"
  "at (" ++ toString a.position.1 ++ ", " ++ toString a.position.2 ++ "), cell has " ++ cellStr ++
    ", nearby " ++ toString (nearbyCount env a.position.1 a.position.2 Resource.red) ++ "R " ++
    toString (nearbyCount env a.position.1 a.position.2 Resource.green) ++ "G " ++
    toString (nearbyAgentCount allAgents a) ++ "A, energy " ++ toString a.energy

/-- Positions of the other living agents
(`{a.position for a in all_agents if a.alive and a is not self}`). -/
def occupiedPositions (allAgents : List Agent) (a : Agent) : List (Int × Int) :=
  (allAgents.filter (fun o => o.alive && !(o.name == a.name))).map (fun o => o.position)

/-- Python's `str.split()` on whitespace, dropping empty tokens. -/
def wordsAux : List Char → List Char → List (List Char)
  | [], acc => if acc.isEmpty then [] else [acc.reverse]
  | c :: cs, acc =>
    if c = ' ' then
      if acc.isEmpty then wordsAux cs [] else acc.reverse :: wordsAux cs []
    else wordsAux cs (c :: acc)

/-- Whitespace tokens of a string, as in Python's `action.split()`. -/
def strWords (s : String) : List String :=
  (wordsAux s.toList []).map (fun l => String.mk l)

/-- `action.startswith("move")`. -/
def startsWithMove (s : String) : Bool :=
  match s.toList with
  | 'm' :: 'o' :: 'v' :: 'e' :: _ => true
  | _ => false

/-- `action.split()[1]`, restricted to the four direction keys of the
target-position dictionary; any other (or missing) token makes the Python
lookup raise, which the caller maps to `none`. -/
def directionOf (action : String) : Option String :=
  match (strWords action).get? 1 with
  | some d => if d = "up" ∨ d = "down" ∨ d = "left" ∨ d = "right" then some d else none
  | none => none

/-- The target-cell dictionary of `decide_and_act`: one-step displacement
clamped to the grid bounds. -/
def moveTarget (env : Environment) (p : Int × Int) (d : String) : Int × Int :=
  if d = "up" then (max 0 (p.1 - 1), p.2)
  else if d = "down" then (min (env.size - 1) (p.1 + 1), p.2)
  else if d = "left" then (p.1, max 0 (p.2 - 1))
  else (p.1, min (env.size - 1) (p.2 + 1))

/-- `get_agent_action(...) or "do nothing"`: an absent (`None`) or empty
response is replaced by `"do nothing"` before validation. -/
def normalizeResponse (r : Option String) : String :=
  match r with
  | none => "do nothing"
  | some s => if s = "" then "do nothing" else s

/-- The action-dispatch block of `decide_and_act`'s loop body, after the
action string has been appended to `actions_taken`.  Returns the updated
agent, environment and outcome text, or `none` when Python would raise
(a `move` action without a recognized direction token). -/
def attemptAction (env : Environment) (a : Agent) (occupied : List (Int × Int)) (action : String) :
    Option (Agent × Environment × String) :=
  if startsWithMove action then
    match directionOf action with
    | none => none
    | some d =>
      let newPos := moveTarget env a.position d
      if newPos ∉ occupied ∧ newPos ≠ a.position then
        some ({ a with position := newPos }, env,
          "moved " ++ d ++ " (energy: " ++ toString a.energy ++ ")")
      else
        some (a, env, "move blocked: other agent or wall")
  else if action = "collect" then
    match env.getCellContent a.position with
    | some Resource.red =>
      some ({ a with invRed := a.invRed + 1 }, env.clearCell a.position, "collected red")
    | some Resource.green =>
      some ({ a with invGreen := a.invGreen + 1 }, env.clearCell a.position, "collected green")
    | none => some (a, env, "nothing to collect")
  else if action = "eat red" ∧ a.invRed > 0 then
    some ({ a with invRed := a.invRed - 1, energy := a.energy + a.rateRed }, env,
      "ate red (+" ++ toString a.rateRed ++ ")")
  else if action = "eat green" ∧ a.invGreen > 0 then
    some ({ a with invGreen := a.invGreen - 1, energy := a.energy + a.rateGreen }, env,
      "ate green (+" ++ toString a.rateGreen ++ ")")
  else if action = "do nothing" then
    some (a, env, "did nothing")
  else
    some (a, env, "failed to act")

/-- The action list built by `Agent._random_action`: the unblocked moves in
direction order, then `collect` when the cell is non-empty, then the eat
options backed by inventory, then `do nothing`. -/
def randomActionList (env : Environment) (a : Agent) (occupied : List (Int × Int)) : List String :=
  (if moveTarget env a.position "up" ∉ occupied ∧ moveTarget env a.position "up" ≠ a.position
    then ["move up"] else []) ++
  (if moveTarget env a.position "down" ∉ occupied ∧ moveTarget env a.position "down" ≠ a.position
    then ["move down"] else []) ++
  (if moveTarget env a.position "left" ∉ occupied ∧ moveTarget env a.position "left" ≠ a.position
    then ["move left"] else []) ++
  (if moveTarget env a.position "right" ∉ occupied ∧ moveTarget env a.position "right" ≠ a.position
    then ["move right"] else []) ++
  (match env.getCellContent a.position with
    | some _ => ["collect"]
    | none => []) ++
  (if a.invRed > 0 then ["eat red"] else []) ++
  (if a.invGreen > 0 then ["eat green"] else []) ++
  ["do nothing"]

/-- The execution block of `Agent._random_action`, dispatching on the
chosen action string (already appended to `actions_taken`).  The move
execution updates the position unconditionally; the collect execution
re-reads the cell and would raise on an empty cell (unreachable, since
`collect` is only offered on a non-empty cell); the eat executions
decrement without a guard (their options are only offered when the count
is positive). -/
def randomExec (env : Environment) (a : Agent) (action : String) :
    Option (Agent × Environment × String) :=
  if startsWithMove action then
    match directionOf action with
    | none => none
    | some d =>
      some ({ a with position := moveTarget env a.position d }, env,
        "moved " ++ d ++ " (energy: " ++ toString a.energy ++ ")")
  else if action = "collect" then
    match env.getCellContent a.position with
    | some Resource.red =>
      some ({ a with invRed := a.invRed + 1 }, env.clearCell a.position, "collected red")
    | some Resource.green =>
      some ({ a with invGreen := a.invGreen + 1 }, env.clearCell a.position, "collected green")
    | none => none
  else if action = "eat red" then
    some ({ a with invRed := a.invRed - 1, energy := a.energy + a.rateRed }, env,
      "ate red (+" ++ toString a.rateRed ++ ")")
  else if action = "eat green" then
    some ({ a with invGreen := a.invGreen - 1, energy := a.energy + a.rateGreen }, env,
      "ate green (+" ++ toString a.rateGreen ++ ")")
  else some (a, env, "did nothing")

/-- `Agent._random_action`: pick one available action (the random choice is
the input index `pick`, taken modulo the list length), record it, execute
it via `randomExec`, then take the post-action observation and append the
memory entry. -/
def randomAction (cfg : Config) (env : Environment) (a : Agent) (occupied : List (Int × Int))
    (pick : Nat) : Option (Agent × Environment × String) :=
  let actions := randomActionList env a occupied
  let action := actions.getD (pick % actions.length) "do nothing"
  (randomExec env { a with actionsTaken := a.actionsTaken ++ [action] } action).map
    (fun r => (addMemory cfg r.1 (currentObservation r.2.1 [] r.1) action r.2.2, r.2.1, r.2.2))

/-- The surviving part of a `decide_and_act` step, entered after the energy
deduction left the agent alive: build the observation and occupancy set,
then either take a random action (`RAND_MODE`) or validate and apply the
backend's response.  Note: the Python retry loop `for _ in range(2):` ends
its body with an unconditional `return result`, so only the first iteration
ever runs; the computed retry message never reaches a second request, and
the code after the loop is unreachable.  The embedding reflects the single
executed iteration. -/
def liveStep (cfg : Config) (env : Environment) (allAgents : List Agent) (a : Agent)
    (responses : List (Option String)) (randPick : Nat) : Option (Agent × Environment × String) :=
  let obs := currentObservation env allAgents a
  let occupied := occupiedPositions allAgents a
  if cfg.randMode then randomAction cfg env a occupied randPick
  else
    let action := normalizeResponse (responses.getD 0 none)
    let a' := { a with actionsTaken := a.actionsTaken ++ [action] }
    match attemptAction env a' occupied action with
    | none => none
    | some r => some (addMemory cfg r.1 obs action r.2.2, r.2.1, r.2.2)

/-- `Agent.decide_and_act`.  `responses` lists the backend's replies to the
successive requests of this step and `randPick` is `_random_action`'s
choice.  Dead agents return `"inactive"` untouched; otherwise the step
counter advances, the per-turn energy loss is applied, and an agent left
with energy ≤ 0 dies with outcome `"ran out of energy"` before any
observation or action request. -/
def decideAndAct (cfg : Config) (env : Environment) (allAgents : List Agent) (a : Agent)
    (responses : List (Option String)) (randPick : Nat) : Option (Agent × Environment × String) :=
  if !a.alive then some (a, env, "inactive")
  else
    let a₁ := { a with stepCount := a.stepCount + 1, energy := a.energy - cfg.energyLossPerTurn }
    if a₁.energy ≤ 0 then some ({ a₁ with alive := false }, env, "ran out of energy")
    else liveStep cfg env allAgents a₁ responses randPick

/-- `trading.TradeOffer`. -/
structure TradeOffer where
  offerer : String
  target : String
  offer_red : Int
  offer_green : Int
  request_red : Int
  request_green : Int
  step : Nat
deriving DecidableEq

/-- `TradeOffer.__str__`. -/
def offerToString (o : TradeOffer) : String :=
  o.offerer ++ "→" ++ o.target ++ ": Offer(" ++ toString o.offer_red ++ "R," ++
    toString o.offer_green ++ "G) for (" ++ toString o.request_red ++ "R," ++
    toString o.request_green ++ "G)"

/-- `trading.Market`: pending offers, the completed-trades ledger, and the
append-only text log. -/
structure Market where
  offers : List TradeOffer
  completed_trades : List TradeOffer
  trade_log : List String
deriving DecidableEq

/-- `Market.add_offer`. -/
def Market.addOffer (m : Market) (o : TradeOffer) : Market :=
  { m with offers := m.offers ++ [o],
           trade_log := m.trade_log ++ ["Step " ++ toString o.step ++ ": " ++ offerToString o] }

/-- `Market.get_offers_for_agent`. -/
def Market.getOffersForAgent (m : Market) (agentName : String) : List TradeOffer :=
  m.offers.filter (fun o => o.target == agentName)

/-- `Market.remove_offer`: drop the first value-equal occurrence, a no-op
when absent. -/
def Market.removeOffer (m : Market) (o : TradeOffer) : Market :=
  { m with offers := m.offers.erase o }

/-- `Market.clear_offers`. -/
def Market.clearOffers (m : Market) : Market :=
  { m with offers := [] }

/-- Look an agent up by name (`agents_dict.get(name)`), resolved to the
first roster entry with that name. -/
def findAgent (roster : List Agent) (nm : String) : Option Agent :=
  roster.find? (fun x => x.name == nm)

/-- Apply an update to the first roster entry with the given name (the
Python code mutates the single object `agents_dict[name]` in place). -/
def updateAgent : List Agent → String → (Agent → Agent) → List Agent
  | [], _, _ => []
  | ag :: rest, nm, f =>
    if ag.name == nm then f ag :: rest else ag :: updateAgent rest nm f

/-- `Market.execute_trade`: re-validate the parties and their inventories,
then exchange the four quantities and append the offer to the ledger.
Returns the success flag with the updated market and roster. -/
def Market.executeTrade (m : Market) (o : TradeOffer) (roster : List Agent) :
    Bool × Market × List Agent :=
  match findAgent roster o.offerer, findAgent roster o.target with
  | some offerer, some tgt =>
    if offerer.alive ∧ tgt.alive then
      if offerer.invRed ≥ o.offer_red ∧ offerer.invGreen ≥ o.offer_green ∧
          tgt.invRed ≥ o.request_red ∧ tgt.invGreen ≥ o.request_green then
        let roster₁ := updateAgent roster o.offerer (fun ag =>
          { ag with invRed := ag.invRed - o.offer_red + o.request_red,
                    invGreen := ag.invGreen - o.offer_green + o.request_green })
        let roster₂ := updateAgent roster₁ o.target (fun ag =>
          { ag with invRed := ag.invRed - o.request_red + o.offer_red,
                    invGreen := ag.invGreen - o.request_green + o.offer_green })
        (true,
          { m with completed_trades := m.completed_trades ++ [o],
                   trade_log := m.trade_log ++
                     ["Step " ++ toString o.step ++ ": TRADE EXECUTED - " ++ offerToString o] },
          roster₂)
      else (false, m, roster)
    else (false, m, roster)
  | _, _ => (false, m, roster)

/-- `trading.calculate_manhattan_distance`. -/
def calculateManhattanDistance (p q : Int × Int) : Int :=
  |p.1 - q.1| + |p.2 - q.2|

/-- `trading.get_agents_in_trade_range`: the living, differently named
agents within Manhattan distance `TRADE_RANGE`. -/
def getAgentsInTradeRange (cfg : Config) (a : Agent) (allAgents : List Agent) : List Agent :=
  if cfg.tradeRange ≤ 0 then []
  else allAgents.filter (fun o =>
    o.alive && !(o.name == a.name) &&
      decide (calculateManhattanDistance a.position o.position ≤ cfg.tradeRange))

/-- `random.choice(l)` with the random draw supplied as the index `k`,
taken modulo the list length. -/
def chooseFrom (l : List Agent) (k : Nat) : Option Agent :=
  l.get? (k % l.length)

/-- `Agent._random_trade_offer`: the candidate 2-for-1 / 1-for-2 offer
quantities, gated by inventory, in source order. -/
def randomOfferTypes (a : Agent) : List (Int × Int × Int × Int) :=
  (if a.invRed ≥ 2 then [(2, 0, 0, 1)] else []) ++
  (if a.invGreen ≥ 2 then [(0, 2, 1, 0)] else []) ++
  (if a.invRed ≥ 1 then [(1, 0, 0, 2)] else []) ++
  (if a.invGreen ≥ 1 then [(0, 1, 2, 0)] else [])

/-- `Agent._random_trade_offer`: random-mode offers, with the target pick
and the offer-type pick as inputs. -/
def randomTradeOffer (a : Agent) (nearby : List Agent) (step : Nat) (targetPick typePick : Nat) :
    Option TradeOffer :=
  if a.invRed < 1 ∧ a.invGreen < 1 then none
  else
    match chooseFrom nearby targetPick with
    | none => none
    | some tgt =>
      let types := randomOfferTypes a
      match types.get? (typePick % types.length) with
      | none => none
      | some q =>
        some { offerer := a.name, target := tgt.name, offer_red := q.1, offer_green := q.2.1,
               request_red := q.2.2.1, request_green := q.2.2.2, step := step }

/-- `Agent.consider_trade_offer`: propose 1 unit of the less-preferred
resource for 1 unit of the preferred one, provided the agent holds some of
the offered resource; balanced agents offer nothing.  The random neighbor
choice is the input `targetPick`. -/
def considerTradeOffer (cfg : Config) (a : Agent) (nearby : List Agent) (step : Nat)
    (targetPick typePick : Nat) : Option TradeOffer :=
  if cfg.tradeRange ≤ 0 ∨ nearby.isEmpty then none
  else if cfg.randMode then randomTradeOffer a nearby step targetPick typePick
  else if a.rateRed > a.rateGreen ∧ a.invGreen > 0 then
    (chooseFrom nearby targetPick).map (fun tgt =>
      { offerer := a.name, target := tgt.name, offer_red := 0,
        offer_green := min 1 a.invGreen, request_red := 1, request_green := 0, step := step })
  else if a.rateGreen > a.rateRed ∧ a.invRed > 0 then
    (chooseFrom nearby targetPick).map (fun tgt =>
      { offerer := a.name, target := tgt.name, offer_red := min 1 a.invRed,
        offer_green := 0, request_red := 0, request_green := 1, step := step })
  else none

/-- Whether the receiving agent's inventory covers an offer's requested
quantities. -/
def coversRequest (a : Agent) (o : TradeOffer) : Prop :=
  a.invRed ≥ o.request_red ∧ a.invGreen ≥ o.request_green

instance (a : Agent) (o : TradeOffer) : Decidable (coversRequest a o) := by
  unfold coversRequest; infer_instance

/-- Random-mode acceptance: walk the offers, flipping one coin per
affordable offer (`random.random() < 0.5`); the coin stream is an input,
exhausted coins rejecting. -/
def randAcceptLoop (a : Agent) : List TradeOffer → List Bool → Option TradeOffer
  | [], _ => none
  | o :: rest, coins =>
    if coversRequest a o then
      if coins.headD false then some o else randAcceptLoop a rest coins.tail
    else randAcceptLoop a rest coins

/-- `Agent.consider_trade_acceptance`: accept the first affordable offer
whose offered resource matches the receiver's preference (any affordable
offer for a balanced receiver); otherwise none. -/
def considerTradeAcceptance (cfg : Config) (a : Agent) (offers : List TradeOffer)
    (coins : List Bool) : Option TradeOffer :=
  if offers.isEmpty then none
  else if cfg.randMode then randAcceptLoop a offers coins
  else offers.find? (fun o =>
    decide (coversRequest a o) &&
      (decide (a.rateRed > a.rateGreen) && decide (o.offer_red > 0) ||
       decide (a.rateGreen > a.rateRed) && decide (o.offer_green > 0) ||
       decide (a.rateRed = a.rateGreen)))

/-- The body of `process_trading_phase`'s Phase-2 loop for one
`(agent, offers)` entry: the agent (looked up live from the roster) decides
against its snapshotted offer list; an accepted offer is executed, then
removed together with every pending offer naming either party; a failed
execution just removes the accepted offer; no acceptance rejects and
removes every snapshotted offer. -/
def processAcceptance (cfg : Config) (st : List Agent × Market × List String)
    (entry : (String × List TradeOffer) × List Bool) : List Agent × Market × List String :=
  let roster := st.1
  let m := st.2.1
  let ev := st.2.2
  let nm := entry.1.1
  let offers := entry.1.2
  match findAgent roster nm with
  | none => (roster, m, ev)
  | some ag =>
    match considerTradeAcceptance cfg ag offers entry.2 with
    | some acc =>
      let r := m.executeTrade acc roster
      if r.1 then
        let m₂ := r.2.1.removeOffer acc
        let conflicts := m₂.offers.filter (fun o =>
          o.offerer == acc.offerer || o.target == acc.offerer ||
          o.offerer == acc.target || o.target == acc.target)
        let m₃ := conflicts.foldl (fun mm c => mm.removeOffer c) m₂
        (r.2.2, m₃,
          ev ++ ["  ACCEPTED: " ++ offerToString acc] ++
            conflicts.map (fun c => "  CANCELLED (conflict): " ++ offerToString c))
      else
        (r.2.2, r.2.1.removeOffer acc,
          ev ++ ["  FAILED: " ++ offerToString acc ++ " (insufficient resources)"])
    | none =>
      (roster, offers.foldl (fun mm o => mm.removeOffer o) m,
        ev ++ offers.map (fun o => "  REJECTED: " ++ offerToString o))

/-- The Phase-2 loop over the shuffled `(agent, offers)` entries. -/
def phase2Aux (cfg : Config) :
    List ((String × List TradeOffer) × List Bool) →
    List Agent × Market × List String → List Agent × Market × List String
  | [], st => st
  | e :: rest, st => phase2Aux cfg rest (processAcceptance cfg st e)

/-- The Phase-1 loop: every living agent with neighbors in range is asked
once for an offer (in roster order); produced offers are appended to the
market and logged.  `offerPicks` supplies each agent's random picks by
roster index. -/
def phase1Aux (cfg : Config) (allAgents : List Agent) (step : Nat)
    (offerPicks : List (Nat × Nat)) :
    List (Nat × Agent) → Market × List String → Market × List String
  | [], st => st
  | (i, ag) :: rest, st =>
    let st' :=
      if ag.alive then
        let nearby := getAgentsInTradeRange cfg ag allAgents
        if nearby.isEmpty then st
        else
          let pk := offerPicks.getD i (0, 0)
          match considerTradeOffer cfg ag nearby step pk.1 pk.2 with
          | some o => (st.1.addOffer o, st.2 ++ ["  " ++ offerToString o])
          | none => st
      else st
    phase1Aux cfg allAgents step offerPicks rest st'

/-- The agents that received at least one pending offer, with their offer
lists, gathered in roster order before the shuffle. -/
def agentsWithOffers (agents : List Agent) (m : Market) : List (String × List TradeOffer) :=
  agents.filterMap (fun ag =>
    if ag.alive then
      let os := m.getOffersForAgent ag.name
      if os.isEmpty then none else some (ag.name, os)
    else none)

/-- `trading.process_trading_phase`.  The `random.shuffle` of the
acceptance processing is the input `order` (indices into the gathered
entry list); `coins` supplies the random-mode acceptance coin flips, one
list per processed entry.  Returns the updated roster and market together
with the trading-event lines. -/
def processTradingPhase (cfg : Config) (agents : List Agent) (market : Market) (step : Nat)
    (offerPicks : List (Nat × Nat)) (order : List Nat) (coins : List (List Bool)) :
    List Agent × Market × List String :=
  if cfg.tradeRange ≤ 0 then (agents, market, [])
  else
    let ev₀ := ["=== TRADING PHASE STEP " ++ toString step ++ " ===", "Phase 1: Making offers..."]
    let p1 := phase1Aux cfg agents step offerPicks agents.enum (market, ev₀)
    let m₁ := p1.1
    let ev₁ := p1.2 ++ ["Phase 2: Processing acceptances..."]
    let awo := agentsWithOffers agents m₁
    let shuffled := order.filterMap (fun i => awo.get? i)
    let entries := shuffled.enum.map (fun e => (e.2, coins.getD e.1 []))
    let p2 := phase2Aux cfg entries (agents, m₁, ev₁)
    (p2.1, p2.2.1.clearOffers, p2.2.2 ++ ["Phase 2 complete - all offers cleared"])

/-- The per-step action loop of `main.py` (lines 143-158): each roster
slot in order, skipping dead agents, acts via `decide_and_act` on the live
roster; positions updated by earlier agents are visible to later ones.
`inputs` supplies each agent's backend responses and random pick by roster
index; `none` propagates a crash. -/
def actionPhaseAux (cfg : Config) (inputs : List (List (Option String) × Nat)) :
    List Nat → List Agent × Environment → Option (List Agent × Environment)
  | [], st => some st
  | i :: rest, st =>
    let step :=
      match st.1.get? i with
      | none => some st
      | some ag =>
        if ag.alive then
          let inp := inputs.getD i ([], 0)
          match decideAndAct cfg st.2 st.1 ag inp.1 inp.2 with
          | none => none
          | some r => some (st.1.set i r.1, r.2.1)
        else some st
    match step with
    | none => none
    | some st' => actionPhaseAux cfg inputs rest st'

/-- One step's action phase over the whole roster. -/
def actionPhase (cfg : Config) (roster : List Agent) (env : Environment)
    (inputs : List (List (Option String) × Nat)) : Option (List Agent × Environment) :=
  actionPhaseAux cfg inputs (List.range roster.length) (roster, env)

/-! ## Concrete instances used by counterexamples and witnesses -/

/-- A standard configuration: per-turn energy loss 1, memory size 10,
trade range 2, LLM (non-random) mode. -/
def cfgStd : Config := ⟨1, 10, 2, false⟩

/-- A 5×5 grid with no resource markers. -/
def envStd : Environment := ⟨5, []⟩

/-- A lone balanced agent in the middle of the grid. -/
def agSolo : Agent := ⟨"D", (2, 2), 0, 0, 10, true, 1, 1, [], [], 0⟩

/-- A red-preferring agent holding red only (zero green). -/
def agRedFan : Agent := ⟨"E", (0, 0), 5, 0, 10, true, 2, 1, [], [], 0⟩

/-- An agent whose energy is exactly the per-turn loss. -/
def agWeak : Agent := ⟨"F", (2, 2), 0, 0, 1, true, 1, 1, [], [], 0⟩

/-- An agent on the top row, column 3. -/
def agEdge : Agent := ⟨"G", (0, 3), 0, 0, 10, true, 1, 1, [], [], 0⟩

/-- Offerer of the C1 scenario: prefers red, holds 2 green. -/
def agA : Agent := ⟨"A", (0, 0), 0, 2, 10, true, 2, 1, [], [], 0⟩

/-- Balanced neighbor holding 1 red. -/
def agB : Agent := ⟨"B", (0, 1), 1, 0, 10, true, 2, 2, [], [], 0⟩

/-- Green-preferring neighbor holding 1 red. -/
def agC : Agent := ⟨"C", (1, 0), 1, 0, 10, true, 1, 2, [], [], 0⟩

/-- The spec's conservation example offerer: inventory {red 0, green 3},
rates {red 2, green 1}. -/
def agO : Agent := ⟨"O", (0, 0), 0, 3, 10, true, 2, 1, [], [], 0⟩

/-- The spec's conservation example target: inventory {red 2, green 0}. -/
def agT : Agent := ⟨"T", (0, 1), 2, 0, 10, true, 1, 2, [], [], 0⟩

/-- The spec's conservation example offer: 1 green for 1 red. -/
def offerOT : TradeOffer := ⟨"O", "T", 0, 1, 1, 0, 1⟩

/-- An empty market. -/
def marketEmpty : Market := ⟨[], [], []⟩

/-- The execution-time validity check of `Market.execute_trade`: both
parties are on the roster, alive, and their inventories cover the
quantities they are to give up. -/
def tradeValid (o : TradeOffer) (roster : List Agent) : Prop :=
  ∃ A B, findAgent roster o.offerer = some A ∧ findAgent roster o.target = some B ∧
    (A.alive ∧ B.alive) ∧
    (A.invRed ≥ o.offer_red ∧ A.invGreen ≥ o.offer_green ∧
      B.invRed ≥ o.request_red ∧ B.invGreen ≥ o.request_green)

/-- Total red inventory of a roster. -/
def sumRed : List Agent → Int
  | [] => 0
  | a :: rest => a.invRed + sumRed rest

/-- Total green inventory of a roster. -/
def sumGreen : List Agent → Int
  | [] => 0
  | a :: rest => a.invGreen + sumGreen rest

/-- An offer whose four quantities are non-negative (every offer the
simulation itself creates is of this kind). -/
def offerNonneg (o : TradeOffer) : Prop :=
  0 ≤ o.offer_red ∧ 0 ≤ o.offer_green ∧ 0 ≤ o.request_red ∧ 0 ≤ o.request_green

/-- An agent whose two inventory counts are non-negative. -/
def invNonneg (a : Agent) : Prop :=
  0 ≤ a.invRed ∧ 0 ≤ a.invGreen

/-- A roster of agents with non-negative inventories. -/
def rosterNonneg (l : List Agent) : Prop :=
  ∀ a ∈ l, invNonneg a

/-- A market whose pending offers all have non-negative quantities. -/
def marketOffersNonneg (m : Market) : Prop :=
  ∀ o ∈ m.offers, offerNonneg o

instance (o : TradeOffer) : Decidable (offerNonneg o) := by
  unfold offerNonneg; infer_instance

instance (a : Agent) : Decidable (invNonneg a) := by
  unfold invNonneg; infer_instance

instance (l : List Agent) : Decidable (rosterNonneg l) := by
  unfold rosterNonneg; exact List.decidableBAll _ l

instance (m : Market) : Decidable (marketOffersNonneg m) := by
  unfold marketOffersNonneg; exact List.decidableBAll _ _

/-! ## Basic lemmas about the step function -/

@[simp] lemma addMemory_invRed (cfg : Config) (a : Agent) (obs act out : String) :
    (addMemory cfg a obs act out).invRed = a.invRed := rfl

@[simp] lemma addMemory_invGreen (cfg : Config) (a : Agent) (obs act out : String) :
    (addMemory cfg a obs act out).invGreen = a.invGreen := rfl

@[simp] lemma addMemory_position (cfg : Config) (a : Agent) (obs act out : String) :
    (addMemory cfg a obs act out).position = a.position := rfl

@[simp] lemma addMemory_energy (cfg : Config) (a : Agent) (obs act out : String) :
    (addMemory cfg a obs act out).energy = a.energy := rfl

@[simp] lemma addMemory_alive (cfg : Config) (a : Agent) (obs act out : String) :
    (addMemory cfg a obs act out).alive = a.alive := rfl

@[simp] lemma addMemory_name (cfg : Config) (a : Agent) (obs act out : String) :
    (addMemory cfg a obs act out).name = a.name := rfl

/-- A dead agent's step: `"inactive"`, nothing touched. -/
lemma decideAndAct_not_alive (cfg : Config) (env : Environment) (allAgents : List Agent)
    (a : Agent) (responses : List (Option String)) (pick : Nat) (h : a.alive = false) :
    decideAndAct cfg env allAgents a responses pick = some (a, env, "inactive") := by
  simp [decideAndAct, h]

/-- The energy-exhaustion branch of a step. -/
lemma decideAndAct_energy_out (cfg : Config) (env : Environment) (allAgents : List Agent)
    (a : Agent) (responses : List (Option String)) (pick : Nat) (h : a.alive = true)
    (h2 : a.energy - cfg.energyLossPerTurn ≤ 0) :
    decideAndAct cfg env allAgents a responses pick =
      some ({ a with
                stepCount := a.stepCount + 1
                energy := a.energy - cfg.energyLossPerTurn
                alive := false }, env, "ran out of energy") := by
  simp [decideAndAct, h, h2]

/-- A surviving step reduces to `liveStep` on the decremented agent. -/
lemma decideAndAct_live (cfg : Config) (env : Environment) (allAgents : List Agent)
    (a : Agent) (responses : List (Option String)) (pick : Nat) (h : a.alive = true)
    (h2 : ¬a.energy - cfg.energyLossPerTurn ≤ 0) :
    decideAndAct cfg env allAgents a responses pick =
      liveStep cfg env allAgents
        { a with stepCount := a.stepCount + 1, energy := a.energy - cfg.energyLossPerTurn }
        responses pick := by
  simp [decideAndAct, h, h2]

/-- In LLM mode, `liveStep` validates the (normalized) first response. -/
lemma liveStep_llm (cfg : Config) (env : Environment) (allAgents : List Agent) (a : Agent)
    (responses : List (Option String)) (pick : Nat) (h : cfg.randMode = false) :
    liveStep cfg env allAgents a responses pick =
      (let action := normalizeResponse (responses.getD 0 none)
       match attemptAction env { a with actionsTaken := a.actionsTaken ++ [action] }
           (occupiedPositions allAgents a) action with
       | none => none
       | some r =>
         some (addMemory cfg r.1 (currentObservation env allAgents a) action r.2.2,
           r.2.1, r.2.2)) := by
  simp [liveStep, h]

/-- `"do nothing"` always succeeds with no effect. -/
lemma attemptAction_doNothing (env : Environment) (a : Agent) (occ : List (Int × Int)) :
    attemptAction env a occ "do nothing" = some (a, env, "did nothing") := rfl

/-- A nonempty list always yields a choice. -/
lemma chooseFrom_isSome (l : List Agent) (k : Nat) (h : l ≠ []) :
    ∃ t, chooseFrom l k = some t := by
  unfold chooseFrom
  have hlt : k % l.length < l.length := Nat.mod_lt _ (List.length_pos.mpr h)
  exact ⟨l.get ⟨_, hlt⟩, List.get?_eq_get hlt⟩

/-! ## Claim theorems -/

/-- C1: the conflict invariant fails on the code.  With agents A (prefers
red, holds 2 green), B (balanced, holds 1 red) and C (prefers green, holds
1 red) all in trade range, Phase 1 produces the offers A→B (1G for 1R) and
C→A (1R for 1G).  When the acceptance shuffle processes B before A, B's
acceptance executes A→B and cancels C→A from the pending set — yet A's
acceptance is then evaluated against its offer list snapshotted before the
phase, which still contains C→A, and `execute_trade` never checks that the
offer is still pending, so C→A executes as well.  The ledger then records
two executed trades naming A in the same step, contradicting the claimed
at-most-one-trade-per-agent invariant. -/
theorem trading_phase_double_trade_for_one_agent :
    (processTradingPhase cfgStd [agA, agB, agC] marketEmpty 1
        [(0, 0), (0, 0), (0, 0)] [1, 0] []).2.1.completed_trades =
      [⟨"A", "B", 0, 1, 1, 0, 1⟩, ⟨"C", "A", 1, 0, 0, 1, 1⟩] ∧
    ((processTradingPhase cfgStd [agA, agB, agC] marketEmpty 1
        [(0, 0), (0, 0), (0, 0)] [1, 0] []).2.1.completed_trades.filter
      (fun o => o.offerer == "A" || o.target == "A")).length = 2 := by
  constructor <;> decide

/-- C2: only one decision attempt is ever made.  The Python loop body ends
in an unconditional `return result`, so after a first invalid response the
step ends immediately with `"failed to act"`: exactly one action is
recorded in `actions_taken`, and the result does not depend on what the
second response would have been. -/
theorem retry_loop_returns_after_first_attempt :
    ∀ r₂ : Option String,
      (decideAndAct cfgStd envStd [agSolo] agSolo [some "gibberish", r₂] 0).map
        (fun r => (r.2.2, r.1.actionsTaken)) = some ("failed to act", ["gibberish"]) := by
  intro r₂
  rfl

/-- C3 counterexample: an absent backend response is not treated as
invalid — `get_agent_action(...) or "do nothing"` converts it into the
`"do nothing"` action, which succeeds with outcome `"did nothing"` (a
successful no-op, not `"failed to act"`), leaving inventory, position and
environment untouched. -/
theorem empty_response_becomes_noop :
    (decideAndAct cfgStd envStd [agSolo] agSolo [none] 0).map
        (fun r => (r.2.2, r.1.invRed, r.1.invGreen, r.1.position, r.2.1)) =
      some ("did nothing", 0, 0, (2, 2), envStd) ∧
    ("did nothing" : String) ≠ "failed to act" :=
  ⟨rfl, by decide⟩

/-- C4 counterexample: an agent with strictly unequal rates (red 2 > green
1) holding none of its less-preferred resource (0 green, 5 red) and a
living neighbor in range makes no offer at all — not a 0-quantity offer:
`consider_trade_offer` requires a positive inventory of the offered
resource. -/
theorem no_offer_when_lacking_offered_resource :
    considerTradeOffer cfgStd agRedFan [agB] 1 0 0 = none := by
  decide

/-- C7 counterexample: the energy-death step changes state beyond the
energy decrement (and the alive flip): `step_count` is incremented before
the energy check, so an agent entering with `step_count = 0` dies with
`step_count = 1`. -/
theorem death_step_increments_step_counter :
    (decideAndAct cfgStd envStd [agWeak] agWeak [] 0).map
        (fun r => (r.2.2, r.1.stepCount)) = some ("ran out of energy", 1) ∧
    agWeak.stepCount = 0 :=
  ⟨rfl, rfl⟩

/-- C3 (amended): an empty or absent DecisionPolicy response is replaced
by `"do nothing"` and succeeds as a no-op with outcome `"did nothing"`,
leaving position, inventory and environment unchanged and energy reduced
by exactly the per-turn tax; it is never treated as invalid and the step
does not end with `"failed to act"`. -/
theorem empty_response_noop_semantics (cfg : Config) (env : Environment)
    (allAgents : List Agent) (a : Agent) (responses : List (Option String)) (pick : Nat)
    (hrand : cfg.randMode = false) (halive : a.alive = true)
    (henergy : cfg.energyLossPerTurn < a.energy)
    (hresp : responses.getD 0 none = none ∨ responses.getD 0 none = some "") :
    ∃ a', decideAndAct cfg env allAgents a responses pick = some (a', env, "did nothing") ∧
      a'.position = a.position ∧ a'.invRed = a.invRed ∧ a'.invGreen = a.invGreen ∧
      a'.energy = a.energy - cfg.energyLossPerTurn ∧ a'.alive = true := by
  have h2 : ¬a.energy - cfg.energyLossPerTurn ≤ 0 := by omega
  rw [decideAndAct_live cfg env allAgents a responses pick halive h2,
    liveStep_llm cfg env allAgents _ responses pick hrand]
  have hact : normalizeResponse (responses.getD 0 none) = "do nothing" := by
    rcases hresp with h | h <;> rw [h] <;> rfl
  simp only [hact, attemptAction_doNothing]
  exact ⟨_, rfl, rfl, rfl, rfl, rfl, halive⟩

/-- Witness for the amended C3 theorem at a concrete input. -/
theorem empty_response_noop_semantics_witness :
    cfgStd.randMode = false ∧ agSolo.alive = true ∧
    cfgStd.energyLossPerTurn < agSolo.energy ∧
    (∃ a', decideAndAct cfgStd envStd [agSolo] agSolo [none] 0 =
        some (a', envStd, "did nothing") ∧
      a'.position = agSolo.position ∧ a'.invRed = agSolo.invRed ∧
      a'.invGreen = agSolo.invGreen ∧
      a'.energy = agSolo.energy - cfgStd.energyLossPerTurn ∧ a'.alive = true) :=
  ⟨rfl, rfl, by decide,
    empty_response_noop_semantics cfgStd envStd [agSolo] agSolo [none] 0 rfl rfl
      (by decide) (Or.inl rfl)⟩

/-- C4 (amended): in LLM mode, a living agent with strictly unequal rates
and a nonempty in-range neighbor list proposes exactly 1 unit of its
less-preferred resource for 1 unit of the other — but only when it holds
at least 1 unit of the offered resource; holding none, it makes no offer
at all.  Balanced agents make no offer. -/
theorem offer_phase_requires_held_resource (cfg : Config) (a : Agent) (nearby : List Agent)
    (step targetPick typePick : Nat) (hrange : 0 < cfg.tradeRange)
    (hrand : cfg.randMode = false) (hne : nearby ≠ []) :
    (a.rateRed > a.rateGreen →
      (0 < a.invGreen → ∃ tgt, chooseFrom nearby targetPick = some tgt ∧
        considerTradeOffer cfg a nearby step targetPick typePick =
          some ⟨a.name, tgt.name, 0, 1, 1, 0, step⟩) ∧
      (a.invGreen ≤ 0 →
        considerTradeOffer cfg a nearby step targetPick typePick = none)) ∧
    (a.rateGreen > a.rateRed →
      (0 < a.invRed → ∃ tgt, chooseFrom nearby targetPick = some tgt ∧
        considerTradeOffer cfg a nearby step targetPick typePick =
          some ⟨a.name, tgt.name, 1, 0, 0, 1, step⟩) ∧
      (a.invRed ≤ 0 →
        considerTradeOffer cfg a nearby step targetPick typePick = none)) ∧
    (a.rateRed = a.rateGreen →
      considerTradeOffer cfg a nearby step targetPick typePick = none) := by
  have hcond : ¬(cfg.tradeRange ≤ 0 ∨ nearby.isEmpty = true) := by
    rw [List.isEmpty_iff]
    push_neg
    exact ⟨by omega, hne⟩
  refine ⟨fun hrg => ⟨fun hg => ?_, fun hg => ?_⟩,
    fun hgr => ⟨fun hr => ?_, fun hr => ?_⟩, fun heq => ?_⟩
  · obtain ⟨tgt, htgt⟩ := chooseFrom_isSome nearby targetPick hne
    refine ⟨tgt, htgt, ?_⟩
    have hmin : min 1 a.invGreen = 1 := min_eq_left (by omega)
    rw [considerTradeOffer, if_neg hcond, if_neg (by simp [hrand]),
      if_pos ⟨hrg, hg⟩, htgt, hmin]
    rfl
  · have hnot₁ : ¬(a.rateRed > a.rateGreen ∧ a.invGreen > 0) := by
      rintro ⟨-, h⟩; omega
    have hnot₂ : ¬(a.rateGreen > a.rateRed ∧ a.invRed > 0) := by
      rintro ⟨h, -⟩; omega
    rw [considerTradeOffer, if_neg hcond, if_neg (by simp [hrand]),
      if_neg hnot₁, if_neg hnot₂]
  · obtain ⟨tgt, htgt⟩ := chooseFrom_isSome nearby targetPick hne
    refine ⟨tgt, htgt, ?_⟩
    have hmin : min 1 a.invRed = 1 := min_eq_left (by omega)
    have hnot₁ : ¬(a.rateRed > a.rateGreen ∧ a.invGreen > 0) := by
      rintro ⟨h, -⟩; omega
    rw [considerTradeOffer, if_neg hcond, if_neg (by simp [hrand]),
      if_neg hnot₁, if_pos ⟨hgr, hr⟩, htgt, hmin]
    rfl
  · have hnot₁ : ¬(a.rateRed > a.rateGreen ∧ a.invGreen > 0) := by
      rintro ⟨h, -⟩; omega
    have hnot₂ : ¬(a.rateGreen > a.rateRed ∧ a.invRed > 0) := by
      rintro ⟨-, h⟩; omega
    rw [considerTradeOffer, if_neg hcond, if_neg (by simp [hrand]),
      if_neg hnot₁, if_neg hnot₂]
  · have hnot₁ : ¬(a.rateRed > a.rateGreen ∧ a.invGreen > 0) := by
      rintro ⟨h, -⟩; omega
    have hnot₂ : ¬(a.rateGreen > a.rateRed ∧ a.invRed > 0) := by
      rintro ⟨h, -⟩; omega
    rw [considerTradeOffer, if_neg hcond, if_neg (by simp [hrand]),
      if_neg hnot₁, if_neg hnot₂]

/-- Witness for the amended C4 theorem at a concrete input. -/
theorem offer_phase_requires_held_resource_witness :
    0 < cfgStd.tradeRange ∧ agA.rateRed > agA.rateGreen ∧ 0 < agA.invGreen ∧
    (∃ tgt, chooseFrom [agB] 0 = some tgt ∧
      considerTradeOffer cfgStd agA [agB] 1 0 0 =
        some ⟨agA.name, tgt.name, 0, 1, 1, 0, 1⟩) :=
  ⟨by decide, by decide, by decide,
    ((offer_phase_requires_held_resource cfgStd agA [agB] 1 0 0 (by decide) rfl
      (by decide)).1 (by decide)).1 (by decide)⟩

/-- A move action string is never empty. -/
lemma moveStr_ne_empty (d : String) : ("move " ++ d : String) ≠ "" := by
  intro h
  have h0 : (("move " ++ d : String)).data[0]? = ("" : String).data[0]? := by rw [h]
  rw [String.data_append, List.getElem?_append_left (by decide)] at h0
  exact absurd h0 (by decide)

/-- The blocked outcome is not a `"moved ..."` outcome. -/
lemma blocked_ne_moved (s : String) :
    ("move blocked: other agent or wall" : String) ≠ "moved " ++ s := by
  intro h
  have h4 : ("move blocked: other agent or wall" : String).data[4]? =
      (("moved " ++ s : String)).data[4]? := by rw [h]
  rw [String.data_append, List.getElem?_append_left (by decide)] at h4
  exact absurd h4 (by decide)

/-- Advancing the step counter and paying the energy tax does not change
which cells count as occupied. -/
lemma occupiedPositions_tick (allAgents : List Agent) (a : Agent) (n : Nat) (e : Int) :
    occupiedPositions allAgents { a with stepCount := n, energy := e } =
      occupiedPositions allAgents a := rfl

/-- `attemptAction` on a well-formed move action: clamp the target, then
either move or report the blocked outcome. -/
lemma attemptAction_move (env : Environment) (a : Agent) (occ : List (Int × Int)) (d : String)
    (hd : d = "up" ∨ d = "down" ∨ d = "left" ∨ d = "right") :
    attemptAction env a occ ("move " ++ d) =
      (if moveTarget env a.position d ∉ occ ∧ moveTarget env a.position d ≠ a.position then
        some ({ a with position := moveTarget env a.position d }, env,
          "moved " ++ d ++ " (energy: " ++ toString a.energy ++ ")")
      else some (a, env, "move blocked: other agent or wall")) := by
  rcases hd with h | h | h | h <;> subst h <;> rfl

/-- C8: a `move <direction>` action clamps the one-step displacement to
the grid bounds and succeeds — updating the position immediately — exactly
when the clamped target differs from the current position and no other
living agent occupies it; otherwise the position is unchanged and the
outcome is `"move blocked: other agent or wall"`.  In particular `move up`
from (0, 3) on a 5×5 grid clamps to (0, 3) and is rejected as blocked even
with no other agent present. -/
theorem move_clamping_and_blocking (cfg : Config) (env : Environment) (allAgents : List Agent)
    (a : Agent) (responses : List (Option String)) (pick : Nat) (d : String)
    (hrand : cfg.randMode = false) (halive : a.alive = true)
    (henergy : cfg.energyLossPerTurn < a.energy)
    (hd : d = "up" ∨ d = "down" ∨ d = "left" ∨ d = "right")
    (hresp : responses.getD 0 none = some ("move " ++ d)) :
    (∃ a' env' r, decideAndAct cfg env allAgents a responses pick = some (a', env', r) ∧
      env' = env ∧
      ((∃ s, r = "moved " ++ s) ↔
        moveTarget env a.position d ∉ occupiedPositions allAgents a ∧
          moveTarget env a.position d ≠ a.position) ∧
      (moveTarget env a.position d ∉ occupiedPositions allAgents a ∧
          moveTarget env a.position d ≠ a.position →
        a'.position = moveTarget env a.position d ∧
          r = "moved " ++ d ++ " (energy: " ++
            toString (a.energy - cfg.energyLossPerTurn) ++ ")") ∧
      (¬(moveTarget env a.position d ∉ occupiedPositions allAgents a ∧
          moveTarget env a.position d ≠ a.position) →
        a'.position = a.position ∧ r = "move blocked: other agent or wall")) ∧
    moveTarget envStd (0, 3) "up" = (0, 3) ∧
    (decideAndAct cfgStd envStd [agEdge] agEdge [some "move up"] 0).map
      (fun r => (r.2.2, r.1.position)) =
      some ("move blocked: other agent or wall", (0, 3)) := by
  refine ⟨?_, by decide, by decide⟩
  have h2 : ¬a.energy - cfg.energyLossPerTurn ≤ 0 := by omega
  rw [decideAndAct_live cfg env allAgents a responses pick halive h2,
    liveStep_llm cfg env allAgents _ responses pick hrand]
  have hact : normalizeResponse (responses.getD 0 none) = "move " ++ d := by
    rw [hresp]
    simp [normalizeResponse, moveStr_ne_empty d]
  simp only [hact, attemptAction_move _ _ _ _ hd, occupiedPositions_tick]
  by_cases hcond : moveTarget env a.position d ∉ occupiedPositions allAgents a ∧
      moveTarget env a.position d ≠ a.position
  · rw [if_pos hcond]
    refine ⟨_, _, _, rfl, rfl, ?_, fun _ => ⟨rfl, rfl⟩, fun h => absurd hcond h⟩
    constructor
    · exact fun _ => hcond
    · intro _
      exact ⟨d ++ (" (energy: " ++ toString (a.energy - cfg.energyLossPerTurn) ++ ")"), by
        simp [String.append_assoc]⟩
  · rw [if_neg hcond]
    refine ⟨_, _, _, rfl, rfl, ?_, fun h => absurd h hcond, fun _ => ⟨rfl, rfl⟩⟩
    constructor
    · rintro ⟨s, hs⟩
      exact absurd hs (blocked_ne_moved s)
    · intro h
      exact absurd h hcond

/-- Witness for the C8 theorem at a concrete input: a lone agent in the
middle of the grid moving up. -/
theorem move_clamping_and_blocking_witness :
    cfgStd.randMode = false ∧ agSolo.alive = true ∧
    cfgStd.energyLossPerTurn < agSolo.energy ∧
    ((∃ a' env' r,
      decideAndAct cfgStd envStd [agSolo] agSolo [some "move up"] 0 = some (a', env', r) ∧
      env' = envStd ∧
      ((∃ s, r = "moved " ++ s) ↔
        moveTarget envStd agSolo.position "up" ∉ occupiedPositions [agSolo] agSolo ∧
          moveTarget envStd agSolo.position "up" ≠ agSolo.position) ∧
      (moveTarget envStd agSolo.position "up" ∉ occupiedPositions [agSolo] agSolo ∧
          moveTarget envStd agSolo.position "up" ≠ agSolo.position →
        a'.position = moveTarget envStd agSolo.position "up" ∧
          r = "moved " ++ "up" ++ " (energy: " ++
            toString (agSolo.energy - cfgStd.energyLossPerTurn) ++ ")") ∧
      (¬(moveTarget envStd agSolo.position "up" ∉ occupiedPositions [agSolo] agSolo ∧
          moveTarget envStd agSolo.position "up" ≠ agSolo.position) →
        a'.position = agSolo.position ∧ r = "move blocked: other agent or wall")) ∧
    moveTarget envStd (0, 3) "up" = (0, 3) ∧
    (decideAndAct cfgStd envStd [agEdge] agEdge [some "move up"] 0).map
      (fun r => (r.2.2, r.1.position)) =
      some ("move blocked: other agent or wall", (0, 3))) :=
  ⟨rfl, rfl, by decide,
    move_clamping_and_blocking cfgStd envStd [agSolo] agSolo [some "move up"] 0 "up" rfl rfl
      (by decide) (Or.inl rfl) (by decide)⟩

/-! ## Lemmas about `Market.execute_trade` -/

/-- A valid trade executes: flag true, ledger extended, both inventories
updated in sequence. -/
lemma executeTrade_of_valid (m : Market) (o : TradeOffer) (roster : List Agent) (A B : Agent)
    (hA : findAgent roster o.offerer = some A) (hB : findAgent roster o.target = some B)
    (halive : A.alive ∧ B.alive)
    (hinv : A.invRed ≥ o.offer_red ∧ A.invGreen ≥ o.offer_green ∧
      B.invRed ≥ o.request_red ∧ B.invGreen ≥ o.request_green) :
    Market.executeTrade m o roster =
      (true,
        { m with completed_trades := m.completed_trades ++ [o],
                 trade_log := m.trade_log ++
                   ["Step " ++ toString o.step ++ ": TRADE EXECUTED - " ++ offerToString o] },
        updateAgent
          (updateAgent roster o.offerer (fun ag =>
            { ag with invRed := ag.invRed - o.offer_red + o.request_red,
                      invGreen := ag.invGreen - o.offer_green + o.request_green }))
          o.target (fun ag =>
            { ag with invRed := ag.invRed - o.request_red + o.offer_red,
                      invGreen := ag.invGreen - o.request_green + o.offer_green })) := by
  simp only [Market.executeTrade, hA, hB]
  rw [if_pos halive, if_pos hinv]

/-- An invalid trade leaves everything unchanged and reports failure. -/
lemma executeTrade_of_invalid (m : Market) (o : TradeOffer) (roster : List Agent)
    (h : ¬tradeValid o roster) :
    Market.executeTrade m o roster = (false, m, roster) := by
  unfold Market.executeTrade
  rcases hA : findAgent roster o.offerer with _ | A
  · simp [hA]
  · rcases hB : findAgent roster o.target with _ | B
    · simp [hA, hB]
    · simp only [hA, hB]
      by_cases halive : A.alive ∧ B.alive
      · rw [if_pos halive, if_neg]
        intro hinv
        exact h ⟨A, B, hA, hB, halive, hinv⟩
      · rw [if_neg halive]

/-- A failed execution returns everything unchanged. -/
lemma executeTrade_false (m : Market) (o : TradeOffer) (roster : List Agent)
    (h : (Market.executeTrade m o roster).1 = false) :
    Market.executeTrade m o roster = (false, m, roster) := by
  by_cases hv : tradeValid o roster
  · obtain ⟨A, B, hA, hB, hal, hinv⟩ := hv
    rw [executeTrade_of_valid m o roster A B hA hB hal hinv] at h
    simp at h
  · exact executeTrade_of_invalid m o roster hv

/-- A successful execution means the validity check passed. -/
lemma executeTrade_true_valid (m : Market) (o : TradeOffer) (roster : List Agent)
    (h : (Market.executeTrade m o roster).1 = true) : tradeValid o roster := by
  by_contra hv
  rw [executeTrade_of_invalid m o roster hv] at h
  simp at h

/-- An update shifting every red count by `d` shifts the roster total by
`d` when the name is present. -/
lemma updateAgent_sumRed (l : List Agent) (nm : String) (f : Agent → Agent) (d : Int)
    (hf : ∀ ag, (f ag).invRed = ag.invRed + d) (hfound : (findAgent l nm).isSome = true) :
    sumRed (updateAgent l nm f) = sumRed l + d := by
  induction l with
  | nil => simp [findAgent] at hfound
  | cons a rest ih =>
    cases hname : a.name == nm with
    | true =>
      simp only [updateAgent, hname, if_true, sumRed, hf a]
      ring
    | false =>
      have hfound' : (findAgent rest nm).isSome = true := by
        simpa [findAgent, List.find?_cons, hname] using hfound
      have : sumRed (updateAgent (a :: rest) nm f) = a.invRed + sumRed (updateAgent rest nm f) := by
        simp [updateAgent, hname, sumRed]
      rw [this, ih hfound']
      simp only [sumRed]
      ring

/-- An update shifting every green count by `d` shifts the roster total by
`d` when the name is present. -/
lemma updateAgent_sumGreen (l : List Agent) (nm : String) (f : Agent → Agent) (d : Int)
    (hf : ∀ ag, (f ag).invGreen = ag.invGreen + d) (hfound : (findAgent l nm).isSome = true) :
    sumGreen (updateAgent l nm f) = sumGreen l + d := by
  induction l with
  | nil => simp [findAgent] at hfound
  | cons a rest ih =>
    cases hname : a.name == nm with
    | true =>
      simp only [updateAgent, hname, if_true, sumGreen, hf a]
      ring
    | false =>
      have hfound' : (findAgent rest nm).isSome = true := by
        simpa [findAgent, List.find?_cons, hname] using hfound
      have : sumGreen (updateAgent (a :: rest) nm f) =
          a.invGreen + sumGreen (updateAgent rest nm f) := by
        simp [updateAgent, hname, sumGreen]
      rw [this, ih hfound']
      simp only [sumGreen]
      ring

/-- A name-preserving update keeps every name findable or not, unchanged. -/
lemma findAgent_updateAgent_isSome (l : List Agent) (nm nm' : String) (f : Agent → Agent)
    (hf : ∀ ag, (f ag).name = ag.name) :
    (findAgent (updateAgent l nm f) nm').isSome = (findAgent l nm').isSome := by
  induction l with
  | nil => rfl
  | cons a rest ih =>
    cases hname : a.name == nm with
    | true =>
      cases h' : a.name == nm' with
      | true => simp [updateAgent, hname, findAgent, List.find?_cons, hf a, h']
      | false => simp [updateAgent, hname, findAgent, List.find?_cons, hf a, h']
    | false =>
      cases h' : a.name == nm' with
      | true => simp [updateAgent, hname, findAgent, List.find?_cons, h']
      | false =>
        have : updateAgent (a :: rest) nm f = a :: updateAgent rest nm f := by
          simp [updateAgent, hname]
        rw [this]
        simpa [findAgent, List.find?_cons, h'] using ih

/-- A name-preserving update of one name leaves lookups of other names
unchanged. -/
lemma findAgent_updateAgent_other (l : List Agent) (nm nm' : String) (f : Agent → Agent)
    (hne : nm' ≠ nm) (hf : ∀ ag, (f ag).name = ag.name) :
    findAgent (updateAgent l nm f) nm' = findAgent l nm' := by
  induction l with
  | nil => rfl
  | cons a rest ih =>
    cases hname : a.name == nm with
    | true =>
      have haeq : a.name = nm := by simpa using hname
      have h' : (a.name == nm') = false := by
        simp [haeq]
        exact fun h => hne h.symm
      simp [updateAgent, hname, findAgent, List.find?_cons, hf a, h']
    | false =>
      cases h' : a.name == nm' with
      | true => simp [updateAgent, hname, findAgent, List.find?_cons, h']
      | false =>
        have : updateAgent (a :: rest) nm f = a :: updateAgent rest nm f := by
          simp [updateAgent, hname]
        rw [this]
        simp only [findAgent] at ih ⊢
        simpa [List.find?_cons, h'] using ih

/-- C5: execution is atomic.  When the execution-time re-validation fails,
`execute_trade` reports failure with the market (ledger included) and both
parties' inventories exactly unchanged; when it succeeds, the four quantity
transfers and the ledger append happen together.  In Phase 2, an accepted
offer whose execution fails is simply removed from the pending set —
discarded, not executed and not retried. -/
theorem execute_trade_atomicity :
    (∀ (m : Market) (o : TradeOffer) (roster : List Agent),
      ((Market.executeTrade m o roster).1 = false →
        Market.executeTrade m o roster = (false, m, roster)) ∧
      (∀ A B, findAgent roster o.offerer = some A → findAgent roster o.target = some B →
        (A.alive ∧ B.alive) →
        (A.invRed ≥ o.offer_red ∧ A.invGreen ≥ o.offer_green ∧
          B.invRed ≥ o.request_red ∧ B.invGreen ≥ o.request_green) →
        Market.executeTrade m o roster =
          (true,
            { m with completed_trades := m.completed_trades ++ [o],
                     trade_log := m.trade_log ++
                       ["Step " ++ toString o.step ++ ": TRADE EXECUTED - " ++
                         offerToString o] },
            updateAgent
              (updateAgent roster o.offerer (fun ag =>
                { ag with invRed := ag.invRed - o.offer_red + o.request_red,
                          invGreen := ag.invGreen - o.offer_green + o.request_green }))
              o.target (fun ag =>
                { ag with invRed := ag.invRed - o.request_red + o.offer_red,
                          invGreen := ag.invGreen - o.request_green + o.offer_green })))) ∧
    (∀ (cfg : Config) (roster : List Agent) (m : Market) (ev : List String) (nm : String)
        (offers : List TradeOffer) (coins : List Bool) (ag : Agent) (acc : TradeOffer),
      findAgent roster nm = some ag →
      considerTradeAcceptance cfg ag offers coins = some acc →
      (Market.executeTrade m acc roster).1 = false →
      processAcceptance cfg (roster, m, ev) ((nm, offers), coins) =
        (roster, m.removeOffer acc,
          ev ++ ["  FAILED: " ++ offerToString acc ++ " (insufficient resources)"])) := by
  constructor
  · intro m o roster
    exact ⟨executeTrade_false m o roster,
      fun A B hA hB hal hinv => executeTrade_of_valid m o roster A B hA hB hal hinv⟩
  · intro cfg roster m ev nm offers coins ag acc hag hacc hfail
    have hexec : Market.executeTrade m acc roster = (false, m, roster) :=
      executeTrade_false m acc roster hfail
    simp [processAcceptance, hag, hacc, hexec]

/-- Witness for the C5 theorem: an offer naming an absent offerer fails and
changes nothing. -/
theorem execute_trade_atomicity_witness :
    (Market.executeTrade marketEmpty ⟨"X", "Y", 1, 0, 0, 1, 1⟩ []).1 = false ∧
    Market.executeTrade marketEmpty ⟨"X", "Y", 1, 0, 0, 1, 1⟩ [] =
      (false, marketEmpty, []) :=
  ⟨by decide,
    (execute_trade_atomicity.1 marketEmpty ⟨"X", "Y", 1, 0, 0, 1, 1⟩ []).1 (by decide)⟩

/-- C6: every executed trade conserves each resource kind — the roster
totals of red and of green are unchanged, and every agent other than the
two parties is untouched.  In particular the spec's example: offerer
{red 0, green 3} trading 1 green for 1 red with target {red 2, green 0}
ends {red 1, green 2}, the target ends {red 1, green 1}. -/
theorem trade_conservation :
    (∀ (m : Market) (o : TradeOffer) (roster : List Agent),
      (Market.executeTrade m o roster).1 = true →
      sumRed (Market.executeTrade m o roster).2.2 = sumRed roster ∧
      sumGreen (Market.executeTrade m o roster).2.2 = sumGreen roster ∧
      ∀ nm, nm ≠ o.offerer → nm ≠ o.target →
        findAgent (Market.executeTrade m o roster).2.2 nm = findAgent roster nm) ∧
    ((Market.executeTrade marketEmpty offerOT [agO, agT]).1 = true ∧
      (Market.executeTrade marketEmpty offerOT [agO, agT]).2.2.map
        (fun ag => (ag.name, ag.invRed, ag.invGreen)) = [("O", 1, 2), ("T", 1, 1)]) := by
  constructor
  · intro m o roster h
    obtain ⟨A, B, hA, hB, hal, hinv⟩ := executeTrade_true_valid m o roster h
    rw [executeTrade_of_valid m o roster A B hA hB hal hinv]
    dsimp only
    have hname₁ : ∀ ag : Agent,
        ((fun ag : Agent =>
          { ag with
              invRed := ag.invRed - o.offer_red + o.request_red
              invGreen := ag.invGreen - o.offer_green + o.request_green }) ag).name = ag.name :=
      fun ag => rfl
    have hname₂ : ∀ ag : Agent,
        ((fun ag : Agent =>
          { ag with
              invRed := ag.invRed - o.request_red + o.offer_red
              invGreen := ag.invGreen - o.request_green + o.offer_green }) ag).name = ag.name :=
      fun ag => rfl
    have hS₁ : (findAgent roster o.offerer).isSome = true := by rw [hA]; rfl
    have hS₂ : (findAgent (updateAgent roster o.offerer (fun ag : Agent =>
        { ag with
            invRed := ag.invRed - o.offer_red + o.request_red
            invGreen := ag.invGreen - o.offer_green + o.request_green }))
        o.target).isSome = true := by
      rw [findAgent_updateAgent_isSome _ _ _ _ hname₁, hB]; rfl
    refine ⟨?_, ?_, ?_⟩
    · rw [updateAgent_sumRed _ o.target _ (o.offer_red - o.request_red)
          (fun ag => by dsimp only; ring) hS₂,
        updateAgent_sumRed _ o.offerer _ (o.request_red - o.offer_red)
          (fun ag => by dsimp only; ring) hS₁]
      ring
    · rw [updateAgent_sumGreen _ o.target _ (o.offer_green - o.request_green)
          (fun ag => by dsimp only; ring) hS₂,
        updateAgent_sumGreen _ o.offerer _ (o.request_green - o.offer_green)
          (fun ag => by dsimp only; ring) hS₁]
      ring
    · intro nm h1 h2
      rw [findAgent_updateAgent_other _ _ _ _ h2 hname₂,
        findAgent_updateAgent_other _ _ _ _ h1 hname₁]
  · exact ⟨by decide, by decide⟩

/-- Witness for the C6 theorem at the spec's own example. -/
theorem trade_conservation_witness :
    (Market.executeTrade marketEmpty offerOT [agO, agT]).1 = true ∧
    sumRed (Market.executeTrade marketEmpty offerOT [agO, agT]).2.2 = sumRed [agO, agT] ∧
    sumGreen (Market.executeTrade marketEmpty offerOT [agO, agT]).2.2 = sumGreen [agO, agT] :=
  ⟨by decide, (trade_conservation.1 marketEmpty offerOT [agO, agT] (by decide)).1,
    (trade_conservation.1 marketEmpty offerOT [agO, agT] (by decide)).2.1⟩

/-- C10: `execute_trade` on an offer whose offerer or target is absent
from the roster or not alive returns `False` and changes neither
inventories, nor the pending set, nor the ledger; consequently a trade
only ever reaches the completed ledger when both parties were alive at
execution time. -/
theorem execute_trade_requires_living_parties :
    ∀ (m : Market) (o : TradeOffer) (roster : List Agent),
      ((findAgent roster o.offerer = none ∨ findAgent roster o.target = none ∨
        (∃ A, findAgent roster o.offerer = some A ∧ A.alive = false) ∨
        (∃ B, findAgent roster o.target = some B ∧ B.alive = false)) →
        Market.executeTrade m o roster = (false, m, roster)) ∧
      ((Market.executeTrade m o roster).1 = true →
        ∃ A B, findAgent roster o.offerer = some A ∧ findAgent roster o.target = some B ∧
          A.alive = true ∧ B.alive = true) := by
  intro m o roster
  constructor
  · intro h
    apply executeTrade_of_invalid
    rintro ⟨A, B, hA, hB, ⟨haA, haB⟩, -⟩
    rcases h with h | h | ⟨A', hA', hd⟩ | ⟨B', hB', hd⟩
    · rw [hA] at h
      exact Option.some_ne_none A h
    · rw [hB] at h
      exact Option.some_ne_none B h
    · rw [hA] at hA'
      cases hA'
      rw [haA] at hd
      exact absurd hd (by decide)
    · rw [hB] at hB'
      cases hB'
      rw [haB] at hd
      exact absurd hd (by decide)
  · intro h
    obtain ⟨A, B, hA, hB, ⟨haA, haB⟩, -⟩ := executeTrade_true_valid m o roster h
    exact ⟨A, B, hA, hB, haA, haB⟩

/-- Witness for the C10 theorem: an offer whose offerer is absent. -/
theorem execute_trade_requires_living_parties_witness :
    findAgent ([] : List Agent) offerOT.offerer = none ∧
    Market.executeTrade marketEmpty offerOT [] = (false, marketEmpty, []) :=
  ⟨rfl, (execute_trade_requires_living_parties marketEmpty offerOT []).1 (Or.inl rfl)⟩

/-! ## Alive-flag preservation lemmas -/

/-- An alive-preserving update keeps the roster's alive flags. -/
lemma updateAgent_map_alive (l : List Agent) (nm : String) (f : Agent → Agent)
    (hf : ∀ ag, (f ag).alive = ag.alive) :
    (updateAgent l nm f).map (fun x => x.alive) = l.map (fun x => x.alive) := by
  induction l with
  | nil => rfl
  | cons a rest ih =>
    cases hname : a.name == nm with
    | true => simp [updateAgent, hname, hf a]
    | false => simp [updateAgent, hname, ih]

/-- Trade execution never changes any agent's alive flag. -/
lemma executeTrade_map_alive (m : Market) (o : TradeOffer) (roster : List Agent) :
    (Market.executeTrade m o roster).2.2.map (fun x => x.alive) =
      roster.map (fun x => x.alive) := by
  by_cases hv : tradeValid o roster
  · obtain ⟨A, B, hA, hB, hal, hinv⟩ := hv
    rw [executeTrade_of_valid m o roster A B hA hB hal hinv]
    dsimp only
    refine (updateAgent_map_alive _ _ _ ?_).trans (updateAgent_map_alive _ _ _ ?_) <;>
      exact fun ag => rfl
  · rw [executeTrade_of_invalid m o roster hv]

/-- One Phase-2 acceptance step never changes any agent's alive flag. -/
lemma processAcceptance_map_alive (cfg : Config) (st : List Agent × Market × List String)
    (e : (String × List TradeOffer) × List Bool) :
    (processAcceptance cfg st e).1.map (fun x => x.alive) = st.1.map (fun x => x.alive) := by
  rcases hag : findAgent st.1 e.1.1 with _ | ag
  · simp only [processAcceptance, hag]
  · rcases hacc : considerTradeAcceptance cfg ag e.1.2 e.2 with _ | acc
    · simp only [processAcceptance, hag, hacc]
    · simp only [processAcceptance, hag, hacc]
      by_cases hr : (Market.executeTrade st.2.1 acc st.1).1 = true
      · rw [if_pos hr]
        exact executeTrade_map_alive _ _ _
      · rw [if_neg hr]
        exact executeTrade_map_alive _ _ _

/-- The Phase-2 loop never changes any agent's alive flag. -/
lemma phase2Aux_map_alive (cfg : Config)
    (entries : List ((String × List TradeOffer) × List Bool)) :
    ∀ st : List Agent × Market × List String,
      (phase2Aux cfg entries st).1.map (fun x => x.alive) = st.1.map (fun x => x.alive) := by
  induction entries with
  | nil => intro st; rfl
  | cons e rest ih =>
    intro st
    show (phase2Aux cfg rest (processAcceptance cfg st e)).1.map (fun x => x.alive) =
      st.1.map (fun x => x.alive)
    rw [ih, processAcceptance_map_alive]

/-- The whole trading phase never changes any agent's alive flag. -/
lemma processTradingPhase_map_alive (cfg : Config) (agents : List Agent) (market : Market)
    (step : Nat) (offerPicks : List (Nat × Nat)) (order : List Nat) (coins : List (List Bool)) :
    (processTradingPhase cfg agents market step offerPicks order coins).1.map
        (fun x => x.alive) = agents.map (fun x => x.alive) := by
  unfold processTradingPhase
  by_cases hr : cfg.tradeRange ≤ 0
  · rw [if_pos hr]
  · rw [if_neg hr]
    exact phase2Aux_map_alive cfg _ _

/-- A dead roster slot is never touched by the action phase. -/
lemma actionPhaseAux_dead_preserved (cfg : Config) (inputs : List (List (Option String) × Nat)) :
    ∀ (idxs : List Nat) (st : List Agent × Environment) (st' : List Agent × Environment),
      actionPhaseAux cfg inputs idxs st = some st' →
      ∀ (i : Nat) (ag : Agent), st.1.get? i = some ag → ag.alive = false →
        st'.1.get? i = some ag := by
  intro idxs
  induction idxs with
  | nil =>
    intro st st' h i ag hag hdead
    cases h
    exact hag
  | cons j rest ih =>
    intro st st' h i ag hag hdead
    rw [actionPhaseAux] at h
    rcases hj : st.1.get? j with _ | agj
    · rw [hj] at h
      exact ih st st' h i ag hag hdead
    · rw [hj] at h
      dsimp only at h
      by_cases haj : agj.alive = true
      · rw [if_pos haj] at h
        rcases hd : decideAndAct cfg st.2 st.1 agj (inputs.getD j ([], 0)).1
            (inputs.getD j ([], 0)).2 with _ | r
        · rw [hd] at h
          cases h
        · rw [hd] at h
          have hne : j ≠ i := by
            intro hji
            rw [hji, hag] at hj
            cases hj
            rw [haj] at hdead
            exact absurd hdead (by decide)
          refine ih _ st' h i ag ?_ hdead
          dsimp only
          rw [List.get?_set_ne _ _ hne]
          exact hag
      · rw [if_neg haj] at h
        exact ih st st' h i ag hag hdead

/-- C7 (amended): every living agent's step pays the per-turn energy loss
before any action is attempted; if the result is ≤ 0 the agent dies with
outcome `"ran out of energy"` and no further change beyond the decrement,
the alive flip and the step-counter increment (no observation, no action
request, no memory entry, inventory/position untouched, environment
untouched).  The death is permanent: a dead agent's step is an untouched
`"inactive"`, trade execution and the whole trading phase never alter any
alive flag, and the action phase never touches a dead roster slot. -/
theorem energy_death_semantics :
    (∀ (cfg : Config) (env : Environment) (allAgents : List Agent) (a : Agent)
        (responses : List (Option String)) (pick : Nat),
      a.alive = true → a.energy - cfg.energyLossPerTurn ≤ 0 →
      decideAndAct cfg env allAgents a responses pick =
        some ({ a with
                  stepCount := a.stepCount + 1
                  energy := a.energy - cfg.energyLossPerTurn
                  alive := false }, env, "ran out of energy")) ∧
    (∀ (cfg : Config) (env : Environment) (allAgents : List Agent) (a : Agent)
        (responses : List (Option String)) (pick : Nat),
      a.alive = false →
      decideAndAct cfg env allAgents a responses pick = some (a, env, "inactive")) ∧
    (∀ (m : Market) (o : TradeOffer) (roster : List Agent),
      (Market.executeTrade m o roster).2.2.map (fun x => x.alive) =
        roster.map (fun x => x.alive)) ∧
    (∀ (cfg : Config) (agents : List Agent) (market : Market) (step : Nat)
        (offerPicks : List (Nat × Nat)) (order : List Nat) (coins : List (List Bool)),
      (processTradingPhase cfg agents market step offerPicks order coins).1.map
        (fun x => x.alive) = agents.map (fun x => x.alive)) ∧
    (∀ (cfg : Config) (roster : List Agent) (env : Environment)
        (inputs : List (List (Option String) × Nat)) (st' : List Agent × Environment)
        (i : Nat) (ag : Agent),
      actionPhase cfg roster env inputs = some st' → roster.get? i = some ag →
      ag.alive = false → st'.1.get? i = some ag) :=
  ⟨fun cfg env allAgents a responses pick h h2 =>
      decideAndAct_energy_out cfg env allAgents a responses pick h h2,
    fun cfg env allAgents a responses pick h =>
      decideAndAct_not_alive cfg env allAgents a responses pick h,
    fun m o roster => executeTrade_map_alive m o roster,
    fun cfg agents market step offerPicks order coins =>
      processTradingPhase_map_alive cfg agents market step offerPicks order coins,
    fun cfg roster env inputs st' i ag h hag hd =>
      actionPhaseAux_dead_preserved cfg inputs _ _ st' h i ag hag hd⟩

/-- Witness for the amended C7 theorem at a concrete input. -/
theorem energy_death_semantics_witness :
    agWeak.alive = true ∧ agWeak.energy - cfgStd.energyLossPerTurn ≤ 0 ∧
    decideAndAct cfgStd envStd [agWeak] agWeak [] 0 =
      some ({ agWeak with
                stepCount := agWeak.stepCount + 1
                energy := agWeak.energy - cfgStd.energyLossPerTurn
                alive := false }, envStd, "ran out of energy") :=
  ⟨rfl, by decide, energy_death_semantics.1 cfgStd envStd [agWeak] agWeak [] 0 rfl (by decide)⟩

/-! ## Non-negativity lemmas -/

/-- Membership in a conditional singleton. -/
lemma mem_if_singleton {α : Type} {c : Prop} [Decidable c] (s x : α) :
    (s ∈ if c then [x] else []) ↔ c ∧ s = x := by
  split_ifs with h <;> simp [h]

/-- The action dispatch preserves non-negative inventories: eating is
guarded by a positive count, collecting increments, everything else leaves
the counts alone. -/
lemma attemptAction_nonneg (env : Environment) (a : Agent) (occ : List (Int × Int))
    (s : String) (x : Agent × Environment × String)
    (h : attemptAction env a occ s = some x)
    (hr : 0 ≤ a.invRed) (hg : 0 ≤ a.invGreen) : 0 ≤ x.1.invRed ∧ 0 ≤ x.1.invGreen := by
  unfold attemptAction at h
  by_cases h1 : startsWithMove s = true
  · rw [if_pos h1] at h
    rcases hd : directionOf s with _ | d
    · rw [hd] at h
      exact Option.noConfusion h
    · rw [hd] at h
      dsimp only at h
      by_cases h2 : moveTarget env a.position d ∉ occ ∧ moveTarget env a.position d ≠ a.position
      · rw [if_pos h2] at h
        simp only [Option.some.injEq] at h
        subst h
        exact ⟨hr, hg⟩
      · rw [if_neg h2] at h
        simp only [Option.some.injEq] at h
        subst h
        exact ⟨hr, hg⟩
  · rw [if_neg h1] at h
    by_cases h2 : s = "collect"
    · rw [if_pos h2] at h
      rcases hc : env.getCellContent a.position with _ | r'
      · rw [hc] at h
        simp only [Option.some.injEq] at h
        subst h
        exact ⟨hr, hg⟩
      · rcases r'
        · rw [hc] at h
          simp only [Option.some.injEq] at h
          subst h
          exact ⟨by dsimp only; omega, hg⟩
        · rw [hc] at h
          simp only [Option.some.injEq] at h
          subst h
          exact ⟨hr, by dsimp only; omega⟩
    · rw [if_neg h2] at h
      by_cases h3 : s = "eat red" ∧ a.invRed > 0
      · rw [if_pos h3] at h
        simp only [Option.some.injEq] at h
        subst h
        exact ⟨by dsimp only; omega, hg⟩
      · rw [if_neg h3] at h
        by_cases h4 : s = "eat green" ∧ a.invGreen > 0
        · rw [if_pos h4] at h
          simp only [Option.some.injEq] at h
          subst h
          exact ⟨hr, by dsimp only; omega⟩
        · rw [if_neg h4] at h
          by_cases h5 : s = "do nothing"
          · rw [if_pos h5] at h
            simp only [Option.some.injEq] at h
            subst h
            exact ⟨hr, hg⟩
          · rw [if_neg h5] at h
            simp only [Option.some.injEq] at h
            subst h
            exact ⟨hr, hg⟩

/-- Every entry of `_random_action`'s action list is one of the grammar's
strings, with the eat options backed by positive inventory. -/
lemma mem_randomActionList (env : Environment) (a : Agent) (occ : List (Int × Int)) (s : String)
    (h : s ∈ randomActionList env a occ) :
    s = "move up" ∨ s = "move down" ∨ s = "move left" ∨ s = "move right" ∨ s = "collect" ∨
    (s = "eat red" ∧ 0 < a.invRed) ∨ (s = "eat green" ∧ 0 < a.invGreen) ∨ s = "do nothing" := by
  unfold randomActionList at h
  rcases hc : env.getCellContent a.position with _ | r' <;> rw [hc] at h <;>
    simp only [List.mem_append, mem_if_singleton, List.mem_singleton, List.mem_cons,
      List.not_mem_nil, or_false] at h <;> tauto

/-- `randomExec` preserves non-negative inventories, provided the eat
actions are only taken with a positive count (as guaranteed by the action
list). -/
lemma randomExec_nonneg (env : Environment) (a : Agent) (action : String)
    (r : Agent × Environment × String) (h : randomExec env a action = some r)
    (hr : 0 ≤ a.invRed) (hg : 0 ≤ a.invGreen)
    (hred : action = "eat red" → 0 < a.invRed)
    (hgreen : action = "eat green" → 0 < a.invGreen) :
    0 ≤ r.1.invRed ∧ 0 ≤ r.1.invGreen := by
  unfold randomExec at h
  by_cases h1 : startsWithMove action = true
  · rw [if_pos h1] at h
    rcases hd : directionOf action with _ | d
    · rw [hd] at h
      exact Option.noConfusion h
    · rw [hd] at h
      simp only [Option.some.injEq] at h
      subst h
      exact ⟨hr, hg⟩
  · rw [if_neg h1] at h
    by_cases h2 : action = "collect"
    · rw [if_pos h2] at h
      rcases hc : env.getCellContent a.position with _ | r'
      · rw [hc] at h
        exact Option.noConfusion h
      · rcases r'
        · rw [hc] at h
          simp only [Option.some.injEq] at h
          subst h
          exact ⟨by dsimp only; omega, hg⟩
        · rw [hc] at h
          simp only [Option.some.injEq] at h
          subst h
          exact ⟨hr, by dsimp only; omega⟩
    · rw [if_neg h2] at h
      by_cases h3 : action = "eat red"
      · rw [if_pos h3] at h
        simp only [Option.some.injEq] at h
        subst h
        exact ⟨by dsimp only; have := hred h3; omega, hg⟩
      · rw [if_neg h3] at h
        by_cases h4 : action = "eat green"
        · rw [if_pos h4] at h
          simp only [Option.some.injEq] at h
          subst h
          exact ⟨hr, by dsimp only; have := hgreen h4; omega⟩
        · rw [if_neg h4] at h
          simp only [Option.some.injEq] at h
          subst h
          exact ⟨hr, hg⟩

/-- The chosen random action is always a member of the action list. -/
lemma randomActionList_getD_mem (env : Environment) (a : Agent) (occ : List (Int × Int))
    (pick : Nat) :
    (randomActionList env a occ).getD (pick % (randomActionList env a occ).length)
      "do nothing" ∈ randomActionList env a occ := by
  have hlen : 0 < (randomActionList env a occ).length := by
    unfold randomActionList
    simp
  have hlt : pick % (randomActionList env a occ).length <
      (randomActionList env a occ).length := Nat.mod_lt _ hlen
  rw [List.getD_eq_getElem _ _ hlt]
  exact List.getElem_mem hlt

/-- `_random_action` preserves non-negative inventories. -/
lemma randomAction_nonneg (cfg : Config) (env : Environment) (a : Agent)
    (occ : List (Int × Int)) (pick : Nat) (x : Agent × Environment × String)
    (h : randomAction cfg env a occ pick = some x)
    (hr : 0 ≤ a.invRed) (hg : 0 ≤ a.invGreen) : 0 ≤ x.1.invRed ∧ 0 ≤ x.1.invGreen := by
  unfold randomAction at h
  simp only [Option.map_eq_some'] at h
  obtain ⟨r, hre, hx⟩ := h
  have hmem := randomActionList_getD_mem env a occ pick
  have hclass := mem_randomActionList env a occ _ hmem
  have hnn := randomExec_nonneg env _ _ r hre hr hg
    (fun hact => by
      rcases hclass with h' | h' | h' | h' | h' | ⟨h', hpos⟩ | ⟨h', hpos⟩ | h' <;>
        first
          | exact hpos
          | (rw [hact] at h'; exact absurd h' (by decide)))
    (fun hact => by
      rcases hclass with h' | h' | h' | h' | h' | ⟨h', hpos⟩ | ⟨h', hpos⟩ | h' <;>
        first
          | exact hpos
          | (rw [hact] at h'; exact absurd h' (by decide)))
  subst hx
  exact hnn

/-- A full `decide_and_act` step preserves non-negative inventories. -/
lemma decideAndAct_nonneg (cfg : Config) (env : Environment) (allAgents : List Agent)
    (a : Agent) (responses : List (Option String)) (pick : Nat)
    (x : Agent × Environment × String)
    (h : decideAndAct cfg env allAgents a responses pick = some x)
    (hr : 0 ≤ a.invRed) (hg : 0 ≤ a.invGreen) : 0 ≤ x.1.invRed ∧ 0 ≤ x.1.invGreen := by
  by_cases hal : a.alive = true
  · by_cases he : a.energy - cfg.energyLossPerTurn ≤ 0
    · rw [decideAndAct_energy_out cfg env allAgents a responses pick hal he] at h
      simp only [Option.some.injEq] at h
      subst h
      exact ⟨hr, hg⟩
    · rw [decideAndAct_live cfg env allAgents a responses pick hal he] at h
      unfold liveStep at h
      by_cases hrand : cfg.randMode = true
      · rw [if_pos hrand] at h
        exact randomAction_nonneg cfg env _ _ pick x h hr hg
      · rw [if_neg hrand] at h
        dsimp only at h
        split at h
        · exact Option.noConfusion h
        · rename_i r heq
          simp only [Option.some.injEq] at h
          subst h
          have hy := attemptAction_nonneg _ _ _ _ r heq hr hg
          exact hy
  · have hal' : a.alive = false := by
      simpa using hal
    rw [decideAndAct_not_alive cfg env allAgents a responses pick hal'] at h
    simp only [Option.some.injEq] at h
    subst h
    exact ⟨hr, hg⟩

/-- A name-preserving update rewrites the looked-up agent. -/
lemma findAgent_updateAgent_same (l : List Agent) (nm : String) (f : Agent → Agent) (A : Agent)
    (hA : findAgent l nm = some A) (hf : ∀ ag, (f ag).name = ag.name) :
    findAgent (updateAgent l nm f) nm = some (f A) := by
  induction l with
  | nil => exact Option.noConfusion hA
  | cons a rest ih =>
    cases hname : a.name == nm with
    | true =>
      have h0 : findAgent (a :: rest) nm = some a := by
        simp [findAgent, List.find?_cons, hname]
      rw [h0] at hA
      injection hA with hh
      subst hh
      simp [updateAgent, hname, findAgent, List.find?_cons, hf a]
    | false =>
      have hA' : findAgent rest nm = some A := by
        simpa [findAgent, List.find?_cons, hname] using hA
      have hupd : updateAgent (a :: rest) nm f = a :: updateAgent rest nm f := by
        simp [updateAgent, hname]
      rw [hupd]
      simpa [findAgent, List.find?_cons, hname] using ih hA'

/-- An update preserves roster non-negativity when the new value at the
looked-up agent is non-negative. -/
lemma updateAgent_nonneg (l : List Agent) (nm : String) (f : Agent → Agent)
    (hl : rosterNonneg l)
    (hf : ∀ ag, findAgent l nm = some ag → invNonneg (f ag)) :
    rosterNonneg (updateAgent l nm f) := by
  induction l with
  | nil =>
    intro y hy
    exact absurd hy (List.not_mem_nil y)
  | cons a rest ih =>
    cases hname : a.name == nm with
    | true =>
      have hupd : updateAgent (a :: rest) nm f = f a :: rest := by
        simp [updateAgent, hname]
      rw [hupd]
      intro y hy
      rcases List.mem_cons.mp hy with hy' | hy'
      · subst hy'
        apply hf
        simp [findAgent, List.find?_cons, hname]
      · exact hl y (List.mem_cons_of_mem _ hy')
    | false =>
      have hupd : updateAgent (a :: rest) nm f = a :: updateAgent rest nm f := by
        simp [updateAgent, hname]
      rw [hupd]
      intro y hy
      rcases List.mem_cons.mp hy with hy' | hy'
      · subst hy'
        exact hl _ (List.mem_cons_self _ _)
      · refine ih (fun z hz => hl z (List.mem_cons_of_mem _ hz)) (fun ag hag => hf ag ?_) y hy'
        simp only [findAgent, List.find?_cons, hname]
        exact hag

/-- Trade execution preserves roster non-negativity for offers with
non-negative quantities: the pre-transfer checks bound every decrement. -/
lemma executeTrade_nonneg (m : Market) (o : TradeOffer) (roster : List Agent)
    (ho : offerNonneg o) (hro : rosterNonneg roster) :
    rosterNonneg (Market.executeTrade m o roster).2.2 := by
  by_cases hv : tradeValid o roster
  · obtain ⟨A, B, hA, hB, hal, hinv⟩ := hv
    rw [executeTrade_of_valid m o roster A B hA hB hal hinv]
    dsimp only
    set f₁ : Agent → Agent := fun ag =>
      { ag with
          invRed := ag.invRed - o.offer_red + o.request_red
          invGreen := ag.invGreen - o.offer_green + o.request_green } with hf₁
    set f₂ : Agent → Agent := fun ag =>
      { ag with
          invRed := ag.invRed - o.request_red + o.offer_red
          invGreen := ag.invGreen - o.request_green + o.offer_green } with hf₂
    obtain ⟨hor, hog, hrr, hrg⟩ := ho
    obtain ⟨h1, h2, h3, h4⟩ := hinv
    have hAmem : A ∈ roster := List.mem_of_find?_eq_some hA
    have hBmem : B ∈ roster := List.mem_of_find?_eq_some hB
    obtain ⟨hAr, hAg⟩ := hro A hAmem
    obtain ⟨hBr, hBg⟩ := hro B hBmem
    have hname₁ : ∀ ag : Agent, (f₁ ag).name = ag.name := fun ag => rfl
    have hname₂ : ∀ ag : Agent, (f₂ ag).name = ag.name := fun ag => rfl
    have hinner : rosterNonneg (updateAgent roster o.offerer f₁) := by
      apply updateAgent_nonneg _ _ _ hro
      intro ag hag
      rw [hA] at hag
      injection hag with hh
      subst hh
      rw [hf₁]
      exact ⟨by dsimp only; omega, by dsimp only; omega⟩
    apply updateAgent_nonneg _ _ _ hinner
    intro ag hag
    by_cases hnm : o.target = o.offerer
    · rw [hnm, findAgent_updateAgent_same roster o.offerer f₁ A hA hname₁] at hag
      injection hag with hh
      subst hh
      rw [hf₂, hf₁]
      exact ⟨by dsimp only; omega, by dsimp only; omega⟩
    · rw [findAgent_updateAgent_other roster o.offerer o.target f₁ hnm hname₁, hB] at hag
      injection hag with hh
      subst hh
      rw [hf₂]
      exact ⟨by dsimp only; omega, by dsimp only; omega⟩
  · rw [executeTrade_of_invalid m o roster hv]
    exact hro

/-- Random-mode acceptance only returns one of the received offers. -/
lemma randAcceptLoop_mem (a : Agent) (offers : List TradeOffer) :
    ∀ (coins : List Bool) (acc : TradeOffer),
      randAcceptLoop a offers coins = some acc → acc ∈ offers := by
  induction offers with
  | nil =>
    intro coins acc h
    exact Option.noConfusion h
  | cons o rest ih =>
    intro coins acc h
    unfold randAcceptLoop at h
    by_cases hc : coversRequest a o
    · rw [if_pos hc] at h
      by_cases hcoin : coins.headD false = true
      · rw [if_pos hcoin] at h
        injection h with hh
        subst hh
        exact List.mem_cons_self o rest
      · rw [if_neg hcoin] at h
        exact List.mem_cons_of_mem _ (ih coins.tail acc h)
    · rw [if_neg hc] at h
      exact List.mem_cons_of_mem _ (ih coins acc h)

/-- An accepted offer is always one of the received offers. -/
lemma considerTradeAcceptance_mem (cfg : Config) (a : Agent) (offers : List TradeOffer)
    (coins : List Bool) (acc : TradeOffer)
    (h : considerTradeAcceptance cfg a offers coins = some acc) : acc ∈ offers := by
  unfold considerTradeAcceptance at h
  by_cases hemp : offers.isEmpty = true
  · rw [if_pos hemp] at h
    exact Option.noConfusion h
  · rw [if_neg hemp] at h
    by_cases hrand : cfg.randMode = true
    · rw [if_pos hrand] at h
      exact randAcceptLoop_mem a offers coins acc h
    · rw [if_neg hrand] at h
      exact List.mem_of_find?_eq_some h

/-- One Phase-2 acceptance step preserves roster non-negativity when the
entry's offers have non-negative quantities. -/
lemma processAcceptance_nonneg (cfg : Config) (st : List Agent × Market × List String)
    (e : (String × List TradeOffer) × List Bool) (hro : rosterNonneg st.1)
    (hoff : ∀ o ∈ e.1.2, offerNonneg o) :
    rosterNonneg (processAcceptance cfg st e).1 := by
  rcases hag : findAgent st.1 e.1.1 with _ | ag
  · simpa [processAcceptance, hag] using hro
  · rcases hacc : considerTradeAcceptance cfg ag e.1.2 e.2 with _ | acc
    · simpa [processAcceptance, hag, hacc] using hro
    · have hmem := considerTradeAcceptance_mem cfg ag e.1.2 e.2 acc hacc
      have hon := hoff acc hmem
      by_cases hr : (Market.executeTrade st.2.1 acc st.1).1 = true
      · have hres : (processAcceptance cfg st e).1 =
            (Market.executeTrade st.2.1 acc st.1).2.2 := by
          simp [processAcceptance, hag, hacc, hr]
        rw [hres]
        exact executeTrade_nonneg _ _ _ hon hro
      · have hres : (processAcceptance cfg st e).1 =
            (Market.executeTrade st.2.1 acc st.1).2.2 := by
          simp [processAcceptance, hag, hacc, hr]
        rw [hres]
        exact executeTrade_nonneg _ _ _ hon hro

/-- The Phase-2 loop preserves roster non-negativity when every processed
entry's offers have non-negative quantities. -/
lemma phase2Aux_nonneg (cfg : Config)
    (entries : List ((String × List TradeOffer) × List Bool)) :
    ∀ st : List Agent × Market × List String, rosterNonneg st.1 →
      (∀ e ∈ entries, ∀ o ∈ e.1.2, offerNonneg o) →
      rosterNonneg (phase2Aux cfg entries st).1 := by
  induction entries with
  | nil =>
    intro st h _
    exact h
  | cons e rest ih =>
    intro st h hoff
    show rosterNonneg (phase2Aux cfg rest (processAcceptance cfg st e)).1
    exact ih _ (processAcceptance_nonneg cfg st e h (hoff e (List.mem_cons_self e rest)))
      (fun e' he' => hoff e' (List.mem_cons_of_mem _ he'))

/-- The candidate random offer quantities. -/
lemma randomOfferTypes_mem (a : Agent) (q : Int × Int × Int × Int)
    (h : q ∈ randomOfferTypes a) :
    q = (2, 0, 0, 1) ∨ q = (0, 2, 1, 0) ∨ q = (1, 0, 0, 2) ∨ q = (0, 1, 2, 0) := by
  unfold randomOfferTypes at h
  simp only [List.mem_append, mem_if_singleton] at h
  tauto

/-- Random-mode offers carry non-negative quantities. -/
lemma randomTradeOffer_nonneg (a : Agent) (nearby : List Agent) (step tp typ : Nat)
    (o : TradeOffer) (h : randomTradeOffer a nearby step tp typ = some o) : offerNonneg o := by
  unfold randomTradeOffer at h
  by_cases h1 : a.invRed < 1 ∧ a.invGreen < 1
  · rw [if_pos h1] at h
    exact Option.noConfusion h
  · rw [if_neg h1] at h
    rcases hc : chooseFrom nearby tp with _ | tgt
    · rw [hc] at h
      exact Option.noConfusion h
    · rw [hc] at h
      dsimp only at h
      rcases hq : (randomOfferTypes a).get? (typ % (randomOfferTypes a).length) with _ | q
      · rw [hq] at h
        exact Option.noConfusion h
      · rw [hq] at h
        injection h with hh
        subst hh
        have hqm : q ∈ randomOfferTypes a := List.get?_mem hq
        rcases randomOfferTypes_mem a q hqm with h' | h' | h' | h' <;> subst h' <;>
          exact ⟨by dsimp only; decide, by dsimp only; decide, by dsimp only; decide,
            by dsimp only; decide⟩

/-- Every offer the offer phase produces has non-negative quantities. -/
lemma considerTradeOffer_nonneg (cfg : Config) (a : Agent) (nearby : List Agent)
    (step tp typ : Nat) (o : TradeOffer)
    (h : considerTradeOffer cfg a nearby step tp typ = some o) : offerNonneg o := by
  unfold considerTradeOffer at h
  by_cases h1 : cfg.tradeRange ≤ 0 ∨ nearby.isEmpty = true
  · rw [if_pos h1] at h
    exact Option.noConfusion h
  · rw [if_neg h1] at h
    by_cases h2 : cfg.randMode = true
    · rw [if_pos h2] at h
      exact randomTradeOffer_nonneg a nearby step tp typ o h
    · rw [if_neg h2] at h
      by_cases h3 : a.rateRed > a.rateGreen ∧ a.invGreen > 0
      · rw [if_pos h3] at h
        rcases hc : chooseFrom nearby tp with _ | tgt
        · rw [hc] at h
          exact Option.noConfusion h
        · rw [hc] at h
          simp only [Option.map_some', Option.some.injEq] at h
          subst h
          refine ⟨by dsimp only; decide, ?_, by dsimp only; decide, by dsimp only; decide⟩
          dsimp only
          exact le_min (by decide) (le_of_lt h3.2)
      · rw [if_neg h3] at h
        by_cases h4 : a.rateGreen > a.rateRed ∧ a.invRed > 0
        · rw [if_pos h4] at h
          rcases hc : chooseFrom nearby tp with _ | tgt
          · rw [hc] at h
            exact Option.noConfusion h
          · rw [hc] at h
            simp only [Option.map_some', Option.some.injEq] at h
            subst h
            refine ⟨?_, by dsimp only; decide, by dsimp only; decide, by dsimp only; decide⟩
            dsimp only
            exact le_min (by decide) (le_of_lt h4.2)
        · rw [if_neg h4] at h
          exact Option.noConfusion h

/-- Phase 1 only adds offers with non-negative quantities. -/
lemma phase1Aux_offers_nonneg (cfg : Config) (allAgents : List Agent) (step : Nat)
    (picks : List (Nat × Nat)) :
    ∀ (l : List (Nat × Agent)) (st : Market × List String),
      marketOffersNonneg st.1 →
      marketOffersNonneg (phase1Aux cfg allAgents step picks l st).1 := by
  intro l
  induction l with
  | nil =>
    intro st h
    exact h
  | cons p rest ih =>
    intro st h
    rcases p with ⟨i, ag⟩
    simp only [phase1Aux]
    apply ih
    by_cases hal : ag.alive = true
    · rw [if_pos hal]
      by_cases hne : (getAgentsInTradeRange cfg ag allAgents).isEmpty = true
      · rw [if_pos hne]
        exact h
      · rw [if_neg hne]
        rcases ho : considerTradeOffer cfg ag (getAgentsInTradeRange cfg ag allAgents) step
            (picks.getD i (0, 0)).1 (picks.getD i (0, 0)).2 with _ | o
        · exact h
        · dsimp only
          intro o' ho'
          rw [show (st.1.addOffer o).offers = st.1.offers ++ [o] from rfl] at ho'
          rcases List.mem_append.mp ho' with hm | hm
          · exact h o' hm
          · rw [List.mem_singleton.mp hm]
            exact considerTradeOffer_nonneg cfg ag _ step _ _ o ho
    · rw [if_neg hal]
      exact h

/-- Every offer carried by a gathered Phase-2 entry is a pending offer of
the market. -/
lemma agentsWithOffers_offers_mem (agents : List Agent) (m : Market)
    (e : String × List TradeOffer) (he : e ∈ agentsWithOffers agents m) :
    ∀ o ∈ e.2, o ∈ m.offers := by
  unfold agentsWithOffers at he
  rw [List.mem_filterMap] at he
  obtain ⟨ag, hag, hfe⟩ := he
  by_cases hal : ag.alive = true
  · rw [if_pos hal] at hfe
    dsimp only at hfe
    by_cases hemp : (m.getOffersForAgent ag.name).isEmpty = true
    · rw [if_pos hemp] at hfe
      exact Option.noConfusion hfe
    · rw [if_neg hemp] at hfe
      injection hfe with hh
      subst hh
      intro o ho
      exact List.mem_of_mem_filter ho
  · rw [if_neg hal] at hfe
    exact Option.noConfusion hfe

/-- Every offer carried by the shuffled Phase-2 entries is a pending offer
of the market, hence non-negative when the market's offers are. -/
lemma entries_offers_nonneg (agents : List Agent) (m : Market) (order : List Nat)
    (coins : List (List Bool)) (hm : marketOffersNonneg m) :
    ∀ e ∈ (order.filterMap (fun i => (agentsWithOffers agents m).get? i)).enum.map
        (fun q => (q.2, coins.getD q.1 [])),
      ∀ o ∈ e.1.2, offerNonneg o := by
  intro e he o ho
  rw [List.mem_map] at he
  obtain ⟨p, hp, hpe⟩ := he
  subst hpe
  rw [List.mem_enum_iff_getElem?] at hp
  have hpm : p.2 ∈ order.filterMap (fun i => (agentsWithOffers agents m).get? i) :=
    List.get?_mem (by rw [List.get?_eq_getElem?]; exact hp)
  rw [List.mem_filterMap] at hpm
  obtain ⟨i, -, hi⟩ := hpm
  have hmem : p.2 ∈ agentsWithOffers agents m := List.get?_mem hi
  exact hm o (agentsWithOffers_offers_mem agents m p.2 hmem o ho)

/-- The whole trading phase preserves roster non-negativity, given that
the offers already pending on entry are non-negative (the simulation
clears the pending set at the end of every phase, so this always holds). -/
lemma processTradingPhase_nonneg (cfg : Config) (agents : List Agent) (market : Market)
    (step : Nat) (offerPicks : List (Nat × Nat)) (order : List Nat)
    (coins : List (List Bool)) (hro : rosterNonneg agents)
    (hm : marketOffersNonneg market) :
    rosterNonneg (processTradingPhase cfg agents market step offerPicks order coins).1 := by
  unfold processTradingPhase
  by_cases hr0 : cfg.tradeRange ≤ 0
  · rw [if_pos hr0]
    exact hro
  · rw [if_neg hr0]
    dsimp only
    apply phase2Aux_nonneg
    · exact hro
    · apply entries_offers_nonneg
      apply phase1Aux_offers_nonneg
      exact hm

/-- The per-step action loop preserves roster non-negativity. -/
lemma actionPhaseAux_nonneg (cfg : Config) (inputs : List (List (Option String) × Nat)) :
    ∀ (idxs : List Nat) (st st' : List Agent × Environment),
      actionPhaseAux cfg inputs idxs st = some st' →
      rosterNonneg st.1 → rosterNonneg st'.1 := by
  intro idxs
  induction idxs with
  | nil =>
    intro st st' h hro
    cases h
    exact hro
  | cons j rest ih =>
    intro st st' h hro
    rw [actionPhaseAux] at h
    rcases hj : st.1.get? j with _ | agj
    · rw [hj] at h
      exact ih st st' h hro
    · rw [hj] at h
      dsimp only at h
      by_cases haj : agj.alive = true
      · rw [if_pos haj] at h
        rcases hd : decideAndAct cfg st.2 st.1 agj (inputs.getD j ([], 0)).1
            (inputs.getD j ([], 0)).2 with _ | r
        · rw [hd] at h
          exact Option.noConfusion h
        · rw [hd] at h
          have hagm : agj ∈ st.1 := List.get?_mem hj
          have hnn := decideAndAct_nonneg cfg st.2 st.1 agj _ _ r hd
            (hro agj hagm).1 (hro agj hagm).2
          refine ih _ st' h ?_
          intro y hy
          rcases List.mem_or_eq_of_mem_set hy with hy' | hy'
          · exact hro y hy'
          · subst hy'
            exact hnn
      · rw [if_neg haj] at h
        exact ih st st' h hro

/-- C9: inventories stay non-negative under every operation: eating is
guarded by a positive count, collecting only increments, random-mode eat
options are only offered when backed by inventory, trade execution checks
both parties' inventories cover the transferred (non-negative) amounts
before any decrement, and the whole action phase and trading phase
preserve a non-negative roster. -/
theorem inventory_nonnegativity :
    (∀ (cfg : Config) (env : Environment) (allAgents : List Agent) (a : Agent)
        (responses : List (Option String)) (pick : Nat) (x : Agent × Environment × String),
      decideAndAct cfg env allAgents a responses pick = some x →
      0 ≤ a.invRed → 0 ≤ a.invGreen → 0 ≤ x.1.invRed ∧ 0 ≤ x.1.invGreen) ∧
    (∀ (m : Market) (o : TradeOffer) (roster : List Agent),
      offerNonneg o → rosterNonneg roster →
      rosterNonneg (Market.executeTrade m o roster).2.2) ∧
    (∀ (cfg : Config) (agents : List Agent) (market : Market) (step : Nat)
        (offerPicks : List (Nat × Nat)) (order : List Nat) (coins : List (List Bool)),
      rosterNonneg agents → marketOffersNonneg market →
      rosterNonneg (processTradingPhase cfg agents market step offerPicks order coins).1) ∧
    (∀ (cfg : Config) (roster : List Agent) (env : Environment)
        (inputs : List (List (Option String) × Nat)) (st' : List Agent × Environment),
      actionPhase cfg roster env inputs = some st' → rosterNonneg roster →
      rosterNonneg st'.1) :=
  ⟨fun cfg env allAgents a responses pick x h hr hg =>
      decideAndAct_nonneg cfg env allAgents a responses pick x h hr hg,
    fun m o roster ho hro => executeTrade_nonneg m o roster ho hro,
    fun cfg agents market step offerPicks order coins hro hm =>
      processTradingPhase_nonneg cfg agents market step offerPicks order coins hro hm,
    fun cfg roster env inputs st' h hro =>
      actionPhaseAux_nonneg cfg inputs _ _ st' h hro⟩

/-- Witness for the C9 theorem at a concrete input. -/
theorem inventory_nonnegativity_witness :
    offerNonneg offerOT ∧ rosterNonneg [agO, agT] ∧
    rosterNonneg (Market.executeTrade marketEmpty offerOT [agO, agT]).2.2 := by
  refine ⟨by decide, by decide, ?_⟩
  exact inventory_nonnegativity.2.1 marketEmpty offerOT [agO, agT] (by decide) (by decide)

end EconomicAgents